import Mathlib

/-!
Shallow embedding of the transcript row model of this repository.

The embedded code lives in two near-identical view components:
`src/components/TranscriptionView.tsx` (referred to below as the TV
variant) and `src/unnamed/part_002` (the P2 variant).  Both parse a raw
text buffer into typed rows, apply a running time offset declared by
separator lines, and serialize the rows to plain text / CSV / SRT.

Strings are modelled as `List Char`.  JavaScript-specific behaviour is
modelled as follows:

* `String.prototype.trim` and the regex class `\s` use the same
  whitespace set; we model the ASCII whitespace characters plus NBSP and
  the BOM (the characters that can actually occur in this pipeline).
* `Number(str)` is modelled on the domain this program exercises:
  the empty string (value 0) and strings of decimal digits, possibly
  surrounded by whitespace; every other string is treated as NaN.
  (Fractional, signed, hexadecimal or exponent literals never reach
  `parseTimeToSeconds` with a meaningful effect in this code base.)
* The specific regular expressions of the source are compiled by hand
  into deterministic matchers; where the regex engine's backtracking
  matters the case analysis justifying determinism is given in comments.
-/

namespace Transcriber

/-- Whitespace set used for `trim` and `\s` (ASCII whitespace, NBSP, BOM). -/
def isJsWs (c : Char) : Bool :=
  c = ' ' || c = '\t' || c = '\n' || c = '\r' || c = '\x0B' || c = '\x0C' ||
  c = '\u00A0' || c = '\uFEFF'

/-- JS `String.prototype.trim`: drop leading and trailing whitespace. -/
def jsTrim (s : List Char) : List Char :=
  ((s.dropWhile isJsWs).reverse.dropWhile isJsWs).reverse

/-- `l1` is a literal prefix of `l2` (JS `String.prototype.startsWith`). -/
def beginsWith : List Char → List Char → Bool
  | [], _ => true
  | _ :: _, [] => false
  | p :: ps, c :: cs => p = c && beginsWith ps cs

/-- JS `str.split(sep)` for a single-character separator: always returns a
non-empty list; splitting the empty string yields `[[]]`. -/
def splitOnChar (sep : Char) : List Char → List (List Char)
  | [] => [[]]
  | c :: cs =>
    match splitOnChar sep cs with
    | [] => [[]]
    | l :: ls => if c = sep then [] :: l :: ls else (c :: l) :: ls

/-- `text.split('\n')`. -/
def splitLines (s : List Char) : List (List Char) := splitOnChar '\n' s

/-- Join a list of lines with `'\n'` (JS `arr.join('\n')`). -/
def joinNl : List (List Char) → List Char
  | [] => []
  | [l] => l
  | l :: ls => l ++ '\n' :: joinNl ls

/-- Decimal digit character for `d < 10`. -/
def digitChar (d : Nat) : Char := Char.ofNat (48 + d)

/-- Fuel-driven core of the decimal printer; structural recursion on the
fuel keeps the definition computable by the kernel.  With `fuel ≥ n` the
fuel never runs out. -/
def natToCharsF : Nat → Nat → List Char
  | 0, n => [digitChar n]
  | fuel + 1, n =>
    if n < 10 then [digitChar n]
    else natToCharsF fuel (n / 10) ++ [digitChar (n % 10)]

/-- Decimal representation of a natural number, most significant digit
first (JS `Number.prototype.toString` on a non-negative integer). -/
def natToChars (n : Nat) : List Char := natToCharsF n n

/-- The fuel argument is irrelevant as long as it is at least `n`. -/
theorem natToCharsF_irrel : ∀ (f1 : Nat) (f2 n : Nat), n ≤ f1 → n ≤ f2 →
    natToCharsF f1 n = natToCharsF f2 n := by
  intro f1
  induction f1 with
  | zero =>
    intro f2 n h1 _
    interval_cases n
    cases f2 <;> simp [natToCharsF]
  | succ f1 ih =>
    intro f2 n h1 h2
    by_cases hn : n < 10
    · cases f2 with
      | zero =>
        have : n = 0 := by omega
        subst this
        simp [natToCharsF]
      | succ f2 => simp [natToCharsF, hn]
    · have hd : n / 10 < n := Nat.div_lt_self (by omega) (by omega)
      cases f2 with
      | zero => omega
      | succ f2 =>
        simp only [natToCharsF, if_neg hn]
        rw [ih f2 (n / 10) (by omega) (by omega)]

/-- Unfolding equation for `natToChars`. -/
theorem natToChars_eq (n : Nat) :
    natToChars n =
      if n < 10 then [digitChar n]
      else natToChars (n / 10) ++ [digitChar (n % 10)] := by
  by_cases hn : n < 10
  · cases n with
    | zero => simp [natToChars, natToCharsF, hn]
    | succ m => simp [natToChars, natToCharsF, hn]
  · have hd : n / 10 < n := Nat.div_lt_self (by omega) (by omega)
    cases n with
    | zero => omega
    | succ m =>
      simp only [natToChars, natToCharsF, if_neg hn]
      rw [natToCharsF_irrel m ((m + 1) / 10) ((m + 1) / 10) (by omega) (by omega)]

/-- Numeric value of a digit string (most significant first). -/
def digitsVal (s : List Char) : Nat :=
  s.foldl (fun a c => a * 10 + (c.toNat - 48)) 0

/-- JS `Number(str)` restricted to the domain exercised by this program:
whitespace-trimmed empty string evaluates to 0, a non-empty string of
decimal digits evaluates to its value, and anything else is NaN
(returned as `none`). -/
def jsNumber (s : List Char) : Option Nat :=
  let t := jsTrim s
  if t = [] then some 0
  else if t.all Char.isDigit then some (digitsVal t) else none

/-- `parseTimeToSeconds` (identical in both components):
split on `':'`, map `Number`; any NaN part makes the result 0; three
parts are `HH:MM:SS`, two parts are `MM:SS`, anything else is 0. -/
def parseTimeToSeconds (timeStr : List Char) : Nat :=
  if timeStr = [] then 0
  else
    let parts := (splitOnChar ':' timeStr).map jsNumber
    if parts.any (· = none) then 0
    else
      let vals := parts.map (·.getD 0)
      match vals with
      | [h, m, s] => h * 3600 + m * 60 + s
      | [m, s] => m * 60 + s
      | _ => 0

/-- JS `str.padStart(2, '0')`. -/
def padStart2 : List Char → List Char
  | [] => ['0', '0']
  | [c] => ['0', c]
  | s => s

/-- `formatSecondsToTime` (identical in both components): zero-padded
`MM:SS`, with an `HH:` field only when hours are non-zero. -/
def formatSecondsToTime (totalSeconds : Nat) : List Char :=
  let h := totalSeconds / 3600
  let m := (totalSeconds % 3600) / 60
  let s := totalSeconds % 60
  let mm := padStart2 (natToChars m)
  let ss := padStart2 (natToChars s)
  if h > 0 then padStart2 (natToChars h) ++ ':' :: mm ++ ':' :: ss
  else mm ++ ':' :: ss

/-- JS `str.padStart(3, '0')`. -/
def padStart3 : List Char → List Char
  | [] => ['0', '0', '0']
  | [c] => ['0', '0', c]
  | [b, c] => ['0', b, c]
  | s => s

/-- `formatSecondsToSRTTimestamp` (identical in both components):
`HH:MM:SS,mmm`.  The source computes `Math.round((totalSeconds % 1) *
1000)` for the milliseconds; on the integer second counts this program
produces that is always 0. -/
def formatSecondsToSRTTimestamp (totalSeconds : Nat) : List Char :=
  let hours := totalSeconds / 3600
  let minutes := (totalSeconds % 3600) / 60
  let seconds := totalSeconds % 60
  let milliseconds := 0
  padStart2 (natToChars hours) ++ ':' :: padStart2 (natToChars minutes) ++
    ':' :: padStart2 (natToChars seconds) ++
    ',' :: padStart3 (natToChars milliseconds)

/-!
Hand-compiled matchers for the regexes of the source.
-/

/-- Greedy match of `\d{1,2}:` at the head of a string.  The regex engine
first tries two digits, then one; since the character after the digits
must be `':'`, the choice is deterministic.  Returns the digits and the
rest after the `':'`. -/
def leadDigits : List Char → Option (List Char × List Char)
  | a :: b :: c :: r =>
    if a.isDigit && b.isDigit && c = ':' then some ([a, b], r)
    else if a.isDigit && b = ':' then some ([a], c :: r)
    else none
  | [a, b] => if a.isDigit && b = ':' then some ([a], []) else none
  | _ => none

/-- Match of `\d{1,2}:\d{2}(?::\d{2})?` at the head of a string, greedy.
The optional seconds group is taken exactly when `':'` followed by two
digits is present: in every context this pattern is used (followed by
`']'`, `\s*-`, or end of search) declining the group when it is available
leaves `':'` at the match pointer, which fails, so the greedy choice is
deterministic.  Returns the matched text and the rest. -/
def twoDigits : List Char → Option (List Char × List Char)
  | a :: b :: r => if a.isDigit && b.isDigit then some ([a, b], r) else none
  | _ => none

def optSecs : List Char → Option (List Char × List Char)
  | ':' :: c :: d :: r =>
    if c.isDigit && d.isDigit then some ([':', c, d], r) else none
  | _ => none

def matchTimePat (s : List Char) : Option (List Char × List Char) :=
  match leadDigits s with
  | none => none
  | some (ld, r1) =>
    match twoDigits r1 with
    | none => none
    | some (md, r2) =>
      match optSecs r2 with
      | some (sd, r3) => some (ld ++ ':' :: md ++ sd, r3)
      | none => some (ld ++ ':' :: md, r2)

/-- One attempt of the separator regex `Start:\s*(\d{1,2}:\d{2}(?::\d{2})?)`
at the head of the string: literal `Start:`, then all whitespace (declining
whitespace leaves a `\s` character where a digit is required, so greedy
consumption is deterministic), then the time pattern.  Returns capture 1. -/
def tryStartHere (s : List Char) : Option (List Char) :=
  match s with
  | 'S' :: 't' :: 'a' :: 'r' :: 't' :: ':' :: r =>
    (matchTimePat (r.dropWhile isJsWs)).map Prod.fst
  | _ => none

/-- Unanchored search of `Start:\s*(\d{1,2}:\d{2}(?::\d{2})?)`: the engine
tries every start position left to right. -/
def findStartMarker : List Char → Option (List Char)
  | [] => none
  | c :: rest =>
    match tryStartHere (c :: rest) with
    | some t => some t
    | none => findStartMarker rest

/-- `trimmed.replace(/---/g, '')`: remove every occurrence of `---`,
scanning left to right without overlap. -/
def removeTripleDash : List Char → List Char
  | '-' :: '-' :: '-' :: r => removeTripleDash r
  | c :: r => c :: removeTripleDash r
  | [] => []

/-- The bracketed time range at the head of a segment line:
`\[(\d{1,2}:\d{2}(?::\d{2})?)(?:\s*-\s*(\d{1,2}:\d{2}(?::\d{2})?))?\]`.
Returns (start capture, optional end capture, rest after `']'`).

Determinism notes: if the optional `\s*-\s*<time>` group matches but the
following `']'` does not, no backtracking can rescue the match — skipping
the group would leave the pointer right after the first time, where the
character is whitespace or `'-'` (otherwise the group could not have
matched), never `']'`. -/
def dashTime (r1 : List Char) : Option (List Char × List Char) :=
  match r1.dropWhile isJsWs with
  | '-' :: r2 => matchTimePat (r2.dropWhile isJsWs)
  | _ => none

def matchBracket (s : List Char) :
    Option (List Char × Option (List Char) × List Char) :=
  match s with
  | '[' :: rr =>
    match matchTimePat rr with
    | none => none
    | some (t1, r1) =>
      match dashTime r1 with
      | some (t2, ']' :: r4) => some (t1, some t2, r4)
      | some _ => none
      | none =>
        match r1 with
        | ']' :: r4 => some (t1, none, r4)
        | _ => none
  | _ => none

/-- Continuation `(?:\*\*)?:` after the speaker core of the TV variant:
greedy optional `**` followed by the mandatory `':'`.  Returns the rest
after the `':'`. -/
def afterSpkCore : List Char → Option (List Char)
  | '*' :: '*' :: ':' :: r => some r
  | ':' :: r => some r
  | _ => none

/-- Lazy core `([^*:]+?)` of the TV speaker group: consume at least one
character that is neither `'*'` nor `':'`, checking the continuation
after each character (shortest match first).  Returns (capture, rest
after the closing `':'`). -/
def spkCoreTV (acc : List Char) : List Char → Option (List Char × List Char)
  | c :: rest =>
    if c = '*' || c = ':' then none
    else
      match afterSpkCore rest with
      | some r => some (acc ++ [c], r)
      | none => spkCoreTV (acc ++ [c]) rest
  | [] => none

/-- The optional speaker group of the TV variant,
`(?:(?:\*\*)?([^*:]+?)(?:\*\*)?:)?`: the leading `**` is taken greedily
when present, falling back to not taking it. -/
def matchSpeakerTV (s : List Char) : Option (List Char × List Char) :=
  match s with
  | '*' :: '*' :: rest =>
    match spkCoreTV [] rest with
    | some x => some x
    | none => spkCoreTV [] s
  | _ => spkCoreTV [] s

/-- The optional speaker group of the P2 variant, `(?:(.*?):)?`: the lazy
`.*?` makes the capture everything up to the first `':'`; if the string
has no `':'` the group is skipped. -/
def spkCoreP2 (acc : List Char) : List Char → Option (List Char × List Char)
  | ':' :: rest => some (acc, rest)
  | c :: rest => spkCoreP2 (acc ++ [c]) rest
  | [] => none

/-- Decomposition of a segment line after the bracket: capture groups
3 (speaker) and 4 (content) of the segment regex. -/
structure SegTail where
  speaker : List Char
  content : List Char
  deriving DecidableEq, Repr

/-- `\s*(?:<speaker group>)?\s*(.*)` of the TV variant applied to the rest
of the line after `']'`.  The first `\s*` is greedy and never needs to be
backtracked because the tail `(.*)` always succeeds. -/
def segTailTV (r : List Char) : SegTail :=
  let r1 := r.dropWhile isJsWs
  match matchSpeakerTV r1 with
  | some (spk, rest) => ⟨spk, rest.dropWhile isJsWs⟩
  | none => ⟨[], r1⟩

/-- `\s*(?:(.*?):)?\s*(.*)` of the P2 variant applied to the rest of the
line after `']'`. -/
def segTailP2 (r : List Char) : SegTail :=
  let r1 := r.dropWhile isJsWs
  match spkCoreP2 [] r1 with
  | some (spk, rest) => ⟨spk, rest.dropWhile isJsWs⟩
  | none => ⟨[], r1⟩

/-!
The row model and the two parsers.
-/

/-- `RowData.type` of the source. -/
inductive RowType
  | segment
  | separator
  | raw
  deriving DecidableEq, Repr

/-- `RowData` of the source (identical in both components). -/
structure RowData where
  id : Nat
  type : RowType
  time : List Char
  speaker : List Char
  content : List Char
  rawLine : List Char
  deriving DecidableEq, Repr

/-- `Speaker` of `src/unnamed/part_000` (`types.ts`). -/
structure Speaker where
  id : List Char
  name : List Char
  deriving DecidableEq, Repr

/-- The separator marker the parser tests with `startsWith`. -/
def sepMarkA : List Char := "--- [".data

/-- The second, redundant separator marker of the source. -/
def sepMarkB : List Char := "--- [接續檔案".data

/-- Case-insensitive string comparison (`a.toLowerCase() === b.toLowerCase()`,
ASCII model of `toLowerCase`). -/
def lowerEq (a b : List Char) : Bool :=
  a.map Char.toLower == b.map Char.toLower

/-- Speaker-mapping step of the TV variant: if the label matches some map
entry's id case-insensitively, substitute that entry's name. -/
def applySpeakerMap (speakers : List Speaker) (spk : List Char) : List Char :=
  if speakers.isEmpty then spk
  else
    match speakers.find? (fun s => lowerEq s.id spk) with
    | some mapped => mapped.name
    | none => spk

/-- `speaker ? speaker + ': ' : ''`. -/
def spkPre (spk : List Char) : List Char :=
  if spk = [] then [] else spk ++ [':', ' ']

/-- The display time string of a segment row: corrected start time, and
`' - '` plus corrected end time when an end time is present. -/
def timeDisplay (off : Nat) (t1 : List Char) (t2? : Option (List Char)) :
    List Char :=
  let s := formatSecondsToTime (parseTimeToSeconds t1 + off)
  match t2? with
  | none => s
  | some t2 =>
    s ++ ' ' :: '-' :: ' ' :: formatSecondsToTime (parseTimeToSeconds t2 + off)

/-- `newRawLine` of a segment row: the bracketed corrected time, a space,
the `speaker: ` piece when the speaker is non-empty, and the content. -/
def rebuildLine (timeStr spk content : List Char) : List Char :=
  '[' :: timeStr ++ ']' :: ' ' :: (spkPre spk ++ content)

/-- One step of the `lines.map` body shared by both parsers, parameterized
by the variant-specific post-bracket decomposition `tailF` and speaker
substitution `smap`.  Returns the row together with the value of
`currentOffsetSeconds` after the line. -/
def parseLineWith (tailF : List Char → SegTail) (smap : List Char → List Char)
    (off : Nat) (idx : Nat) (line : List Char) : RowData × Nat :=
  let trimmed := jsTrim line
  if beginsWith sepMarkA trimmed || beginsWith sepMarkB trimmed then
    let off' :=
      match findStartMarker trimmed with
      | some t => parseTimeToSeconds t
      | none => off
    ({ id := idx, type := .separator, time := [], speaker := [],
       content := jsTrim (removeTripleDash trimmed), rawLine := line }, off')
  else if trimmed = [] then
    ({ id := idx, type := .raw, time := [], speaker := [], content := [],
       rawLine := line }, off)
  else
    match matchBracket line with
    | some (t1, t2?, r) =>
      let tl := tailF r
      let spk := smap tl.speaker
      let t := timeDisplay off t1 t2?
      ({ id := idx, type := .segment, time := t, speaker := spk,
         content := tl.content, rawLine := rebuildLine t spk tl.content }, off)
    | none =>
      ({ id := idx, type := .raw, time := [], speaker := [], content := line,
         rawLine := line }, off)

/-- The sequential walk over the split lines, threading
`currentOffsetSeconds`. -/
def parseRowsAux (tailF : List Char → SegTail) (smap : List Char → List Char)
    (off : Nat) (idx : Nat) : List (List Char) → List RowData
  | [] => []
  | l :: ls =>
    (parseLineWith tailF smap off idx l).1 ::
      parseRowsAux tailF smap (parseLineWith tailF smap off idx l).2 (idx + 1) ls

/-- `rows` of `TranscriptionView.tsx` (speaker-map aware variant). -/
def rowsTV (speakers : List Speaker) (text : List Char) : List RowData :=
  parseRowsAux segTailTV (applySpeakerMap speakers) 0 0 (splitLines text)

/-- `rows` of `src/unnamed/part_002` (no speaker map). -/
def rowsP2 (text : List Char) : List RowData :=
  parseRowsAux segTailP2 (fun s => s) 0 0 (splitLines text)

/-- `getProcessedText` (identical in both components). -/
def getProcessedText (rows : List RowData) : List Char :=
  joinNl (rows.map (·.rawLine))

/-!
Exports.
-/

/-- `str.replace(/"/g, '""')`. -/
def escQuotes : List Char → List Char
  | '"' :: r => '"' :: '"' :: escQuotes r
  | c :: r => c :: escQuotes r
  | [] => []

/-- The chunk `handleDownloadCSV` appends for one row: segment rows emit
all three quoted columns (only the content column is quote-escaped),
separator rows emit their raw line in the third column, raw rows emit
their content in the third column when it is not blank. -/
def csvRowChunk (row : RowData) : List Char :=
  match row.type with
  | .segment =>
    '"' :: row.time ++ '"' :: ',' :: '"' :: row.speaker ++ '"' :: ',' ::
      '"' :: escQuotes row.content ++ ['"', '\n']
  | .separator => ',' :: ',' :: '"' :: escQuotes row.rawLine ++ ['"', '\n']
  | .raw =>
    if jsTrim row.content ≠ [] then
      ',' :: ',' :: '"' :: escQuotes row.content ++ ['"', '\n']
    else []

/-- The fixed leading text of `handleDownloadCSV`: the data-URI scheme
piece, the BOM, and the header row.  (The subsequent `encodeURI` and
anchor-click download mechanics are not part of the string model.) -/
def csvLead : List Char :=
  "data:text/csv;charset=utf-8,\uFEFF".data ++ "Time,Speaker,Content\n".data

/-- The full string built by `handleDownloadCSV` (identical in both
components). -/
def handleDownloadCSV (rows : List RowData) : List Char :=
  rows.foldl (fun acc row => acc ++ csvRowChunk row) csvLead

/-- The cue text of an SRT entry. -/
def srtEntryText (row : RowData) : List Char :=
  if row.speaker ≠ [] then row.speaker ++ ':' :: ' ' :: row.content
  else row.content

/-- The `rows.forEach` loop of `handleDownloadSRT`, threading the 1-based
counter, which advances only when an entry is emitted. -/
def srtAux (counter : Nat) : List RowData → List Char
  | [] => []
  | row :: rest =>
    if row.type ≠ .segment then srtAux counter rest
    else
      let timeParts := (splitOnChar '-' row.time).map jsTrim
      match timeParts with
      | [] => srtAux counter rest
      | p0 :: restParts =>
        if p0 = [] then srtAux counter rest
        else
          let startSec := parseTimeToSeconds p0
          let endSec0 :=
            match restParts with
            | p1 :: _ =>
              if p1 = [] then startSec + 5 else parseTimeToSeconds p1
            | [] => startSec + 5
          let endSec := if endSec0 ≤ startSec then startSec + 3 else endSec0
          natToChars counter ++ '\n' ::
            (formatSecondsToSRTTimestamp startSec ++ ' ' :: '-' :: '-' :: '>' ::
              ' ' :: formatSecondsToSRTTimestamp endSec) ++ '\n' ::
            srtEntryText row ++ '\n' :: '\n' :: srtAux (counter + 1) rest

/-- The full string built by `handleDownloadSRT` (identical in both
components). -/
def handleDownloadSRT (rows : List RowData) : List Char :=
  srtAux 1 rows

/-!
CSV import.
-/

/-- `input.replace(/\r\n/g, '\n')`. -/
def replCRLF : List Char → List Char
  | '\r' :: '\n' :: r => '\n' :: replCRLF r
  | c :: r => c :: replCRLF r
  | [] => []

/-- `input.replace(/\r/g, '\n')`. -/
def replCR : List Char → List Char
  | '\r' :: r => '\n' :: replCR r
  | c :: r => c :: replCR r
  | [] => []

/-- The `parseLine` state-machine CSV field splitter of `handleImportCSV`:
quote toggles quoting, a doubled quote inside quotes is a literal quote,
commas split only outside quotes. -/
def csvSplitFields : Bool → List Char → List Char → List (List Char)
  | _, cur, [] => [cur]
  | true, cur, '"' :: '"' :: rest2 => csvSplitFields true (cur ++ ['"']) rest2
  | true, cur, '"' :: rest => csvSplitFields false cur rest
  | true, cur, c :: rest => csvSplitFields true (cur ++ [c]) rest
  | false, cur, '"' :: rest => csvSplitFields true cur rest
  | false, cur, ',' :: rest => cur :: csvSplitFields false [] rest
  | false, cur, c :: rest => csvSplitFields false (cur ++ [c]) rest

/-- `c0.replace(/^"|"$/g, '')`: drop one leading and one trailing quote. -/
def stripEdgeQuotes (s : List Char) : List Char :=
  let s1 := match s with | '"' :: r => r | _ => s
  match s1.reverse with
  | '"' :: r => r.reverse
  | _ => s1

/-- `cols.slice(2).join(',')`. -/
def joinComma : List (List Char) → List Char
  | [] => []
  | [l] => l
  | l :: ls => l ++ ',' :: joinComma ls

/-- The body of the import loop for the line at raw index `i`: the chunk
appended to `importString`, or `none` when the line is skipped. -/
def importLineOut (i : Nat) (rawLine : List Char) : Option (List Char) :=
  let line := jsTrim rawLine
  if line = [] then none
  else if beginsWith "---".data line then none
  else
    let cols := csvSplitFields false [] line
    let headerHit :=
      if i < 5 then
        let c0 := stripEdgeQuotes (jsTrim ((cols.headD []).map Char.toLower))
        c0 = "time".data || c0 = "時間".data || beginsWith "time".data c0
      else false
    if headerHit then none
    else
      let time :=
        if cols.length ≥ 3 then cols.headD []
        else if cols.length = 2 then cols.headD [] else []
      let speaker := if cols.length ≥ 3 then (cols.get? 1).getD [] else []
      let content :=
        if cols.length ≥ 3 then
          if cols.length > 3 then joinComma (cols.drop 2)
          else (cols.get? 2).getD []
        else if cols.length = 2 then (cols.get? 1).getD []
        else if cols.length = 1 then cols.headD []
        else []
      let cleanTime := jsTrim time
      let cleanSpeaker := jsTrim speaker
      let cleanContent := jsTrim content
      if cleanTime ≠ [] then
        let timeStr :=
          if beginsWith "[".data cleanTime then cleanTime
          else '[' :: cleanTime ++ [']']
        some (timeStr ++ ' ' :: (spkPre cleanSpeaker ++ cleanContent) ++ ['\n'])
      else if cleanContent ≠ [] then some (cleanContent ++ ['\n'])
      else none

/-- The import loop over all lines starting at raw index `i`, producing
`(importString, validRowsCount)`. -/
def importAux (i : Nat) : List (List Char) → List Char × Nat
  | [] => ([], 0)
  | l :: ls =>
    let rest := importAux (i + 1) ls
    match importLineOut i l with
    | some chunk => (chunk ++ rest.1, rest.2 + 1)
    | none => rest

/-- The pure core of `handleImportCSV` (identical in both components):
strip a leading BOM, normalize line endings, and run the import loop.
(The confirmation dialog and the `onUpdate` call are UI mechanics.) -/
def handleImportCSV (rawText : List Char) : List Char × Nat :=
  let input := match rawText with | '\uFEFF' :: r => r | _ => rawText
  let lines := splitLines (replCR (replCRLF input))
  importAux 0 lines

/-!
Row editing.
-/

/-- The `field` argument of `updateRow`. -/
inductive EditField
  | time
  | speaker
  | content
  deriving DecidableEq, Repr

/-- Lazy scan to the first `']'` inclusive (`\[.*?\]` body). -/
def lazyToRB : List Char → Option (List Char)
  | [] => none
  | c :: r => if c = ']' then some [']'] else (lazyToRB r).map (c :: ·)

/-- `originalLine.match(/^(\[.*?\])/)`: the shortest bracketed group at
the start of the line, when present. -/
def bracketPre (l : List Char) : Option (List Char) :=
  match l with
  | '[' :: r => (lazyToRB r).map ('[' :: ·)
  | _ => none

/-- `updateRow` of `TranscriptionView.tsx`.  The time branch there writes
the user-entered value into the raw line verbatim (the source comments
this as a simplification).  Out-of-range indices are modelled as a no-op
(the source would fault on them; they are unreachable from the UI). -/
def updateRowTV (speakers : List Speaker) (text : List Char) (index : Nat)
    (field : EditField) (value : List Char) : List Char :=
  let rows := rowsTV speakers text
  match rows.get? index with
  | none => text
  | some row =>
    if row.type ≠ .segment then joinNl ((splitLines text).set index value)
    else
      let newSpeaker := if field = .speaker then value else row.speaker
      let newContent := if field = .content then value else row.content
      let lines := splitLines text
      let originalLine := lines.getD index []
      match field with
      | .time =>
        joinNl (lines.set index
          ('[' :: value ++ ']' :: ' ' :: (spkPre newSpeaker ++ newContent)))
      | _ =>
        let pre := (bracketPre originalLine).getD ('[' :: row.time ++ [']'])
        joinNl (lines.set index (pre ++ ' ' :: (spkPre newSpeaker ++ newContent)))

/-- The separator-declared start of a row, when the row is a separator
whose content carries a parsable `Start: <time>` marker (the backward
scan of the P2 time edit). -/
def sepStartOf (r : RowData) : Option Nat :=
  if r.type = .separator then (findStartMarker r.content).map parseTimeToSeconds
  else none

/-- The `for (let i = index; i >= 0; i--)` loop of the P2 time edit: the
declared start of the nearest row at or before `index` that is a
separator with a parsable `Start:` marker, or 0. -/
def effectiveOffsetP2 (rows : List RowData) : Nat → Nat
  | 0 => ((rows.get? 0).bind sepStartOf).getD 0
  | i + 1 =>
    match (rows.get? (i + 1)).bind sepStartOf with
    | some v => v
    | none => effectiveOffsetP2 rows i

/-- `updateRow` of `src/unnamed/part_002`.  Its time branch subtracts the
effective offset (found by the backward scan) from the user-entered
times, clamped at zero — `Math.max(0, a - b)` on naturals is truncated
subtraction. -/
def updateRowP2 (text : List Char) (index : Nat) (field : EditField)
    (value : List Char) : List Char :=
  let rows := rowsP2 text
  match rows.get? index with
  | none => text
  | some row =>
    if row.type ≠ .segment then joinNl ((splitLines text).set index value)
    else
      let newSpeaker := if field = .speaker then value else row.speaker
      let newContent := if field = .content then value else row.content
      let lines := splitLines text
      let originalLine := lines.getD index []
      match field with
      | .time =>
        let effOff := effectiveOffsetP2 rows index
        let userTimeParts := (splitOnChar '-' value).map jsTrim
        let startSec := parseTimeToSeconds (userTimeParts.headD [])
        let endSec : Option Nat :=
          match userTimeParts.get? 1 with
          | some p1 => if p1 = [] then none else some (parseTimeToSeconds p1)
          | none => none
        let relTimeStr :=
          match endSec with
          | none => formatSecondsToTime (startSec - effOff)
          | some e =>
            formatSecondsToTime (startSec - effOff) ++
              ' ' :: '-' :: ' ' :: formatSecondsToTime (e - effOff)
        joinNl (lines.set index
          ('[' :: relTimeStr ++ ']' :: ' ' :: (spkPre newSpeaker ++ newContent)))
      | _ =>
        let pre := (bracketPre originalLine).getD ('[' :: row.time ++ [']'])
        joinNl (lines.set index (pre ++ ' ' :: (spkPre newSpeaker ++ newContent)))

/-!
Basic structure of the parser walk.
-/

/-- The classification test for separator lines. -/
def sepCond (l : List Char) : Bool :=
  beginsWith sepMarkA (jsTrim l) || beginsWith sepMarkB (jsTrim l)

/-- How one line transforms `currentOffsetSeconds`: a separator line with a
parsable `Start:` marker replaces the offset with the parsed value
(ignoring the previous offset); every other line leaves it unchanged. -/
def offsetStep (off : Nat) (l : List Char) : Nat :=
  if sepCond l then
    match findStartMarker (jsTrim l) with
    | some t => parseTimeToSeconds t
    | none => off
  else off

/-- The offset in force at line `i`: fold `offsetStep` over the earlier
lines, starting from 0. -/
def offsetInForce (lines : List (List Char)) (i : Nat) : Nat :=
  (lines.take i).foldl offsetStep 0

theorem parseLineWith_sep (tailF : List Char → SegTail)
    (smap : List Char → List Char) (off idx : Nat) (l : List Char)
    (h : sepCond l = true) :
    parseLineWith tailF smap off idx l =
      ({ id := idx, type := .separator, time := [], speaker := [],
         content := jsTrim (removeTripleDash (jsTrim l)), rawLine := l },
       match findStartMarker (jsTrim l) with
       | some t => parseTimeToSeconds t
       | none => off) := by
  unfold parseLineWith
  simp only [sepCond] at h
  simp [h]

theorem parseLineWith_blank (tailF : List Char → SegTail)
    (smap : List Char → List Char) (off idx : Nat) (l : List Char)
    (h2 : jsTrim l = []) :
    parseLineWith tailF smap off idx l =
      ({ id := idx, type := .raw, time := [], speaker := [], content := [],
         rawLine := l }, off) := by
  have hA : beginsWith sepMarkA (jsTrim l) = false := by rw [h2]; decide
  have hB : beginsWith sepMarkB (jsTrim l) = false := by rw [h2]; decide
  unfold parseLineWith
  simp [hA, hB, h2]
  exact ⟨by decide, by decide⟩

theorem parseLineWith_seg (tailF : List Char → SegTail)
    (smap : List Char → List Char) (off idx : Nat) (l : List Char)
    (h : sepCond l = false) (h2 : jsTrim l ≠ [])
    (t1 : List Char) (t2q : Option (List Char)) (r : List Char)
    (h3 : matchBracket l = some (t1, t2q, r)) :
    parseLineWith tailF smap off idx l =
      ({ id := idx, type := .segment, time := timeDisplay off t1 t2q,
         speaker := smap (tailF r).speaker, content := (tailF r).content,
         rawLine := rebuildLine (timeDisplay off t1 t2q) (smap (tailF r).speaker)
           (tailF r).content }, off) := by
  unfold parseLineWith
  simp only [sepCond, Bool.or_eq_false_iff] at h
  simp [h.1, h.2, h2, h3]

theorem parseLineWith_rawline (tailF : List Char → SegTail)
    (smap : List Char → List Char) (off idx : Nat) (l : List Char)
    (h : sepCond l = false) (h2 : jsTrim l ≠ [])
    (h3 : matchBracket l = none) :
    parseLineWith tailF smap off idx l =
      ({ id := idx, type := .raw, time := [], speaker := [], content := l,
         rawLine := l }, off) := by
  unfold parseLineWith
  simp only [sepCond, Bool.or_eq_false_iff] at h
  simp [h.1, h.2, h2, h3]

/-- The offset returned by one parser step is `offsetStep`, independently
of the variant. -/
theorem parseLineWith_snd (tailF : List Char → SegTail)
    (smap : List Char → List Char) (off idx : Nat) (l : List Char) :
    (parseLineWith tailF smap off idx l).2 = offsetStep off l := by
  by_cases h : sepCond l = true
  · rw [parseLineWith_sep tailF smap off idx l h]
    simp [offsetStep, h]
  · have h' : sepCond l = false := by simpa using h
    by_cases h2 : jsTrim l = []
    · rw [parseLineWith_blank tailF smap off idx l h2]
      simp [offsetStep, h']
    · cases h3 : matchBracket l with
      | none =>
        rw [parseLineWith_rawline tailF smap off idx l h' h2 h3]
        simp [offsetStep, h']
      | some v =>
        obtain ⟨t1, t2q, r⟩ := v
        rw [parseLineWith_seg tailF smap off idx l h' h2 t1 t2q r h3]
        simp [offsetStep, h']

theorem parseRowsAux_length (tailF : List Char → SegTail)
    (smap : List Char → List Char) :
    ∀ (ls : List (List Char)) (off idx : Nat),
      (parseRowsAux tailF smap off idx ls).length = ls.length := by
  intro ls
  induction ls with
  | nil => intro off idx; rfl
  | cons l ls ih =>
    intro off idx
    simp [parseRowsAux, ih]

/-- The `i`-th row produced by the walk is the single-line semantics
applied at the offset accumulated over the earlier lines. -/
theorem parseRowsAux_get? (tailF : List Char → SegTail)
    (smap : List Char → List Char) :
    ∀ (ls : List (List Char)) (off idx i : Nat),
      (parseRowsAux tailF smap off idx ls).get? i =
        (ls.get? i).map
          (fun l => (parseLineWith tailF smap ((ls.take i).foldl offsetStep off)
            (idx + i) l).1) := by
  intro ls
  induction ls with
  | nil => intro off idx i; cases i <;> rfl
  | cons l ls ih =>
    intro off idx i
    cases i with
    | zero => simp [parseRowsAux]
    | succ n =>
      simp only [parseRowsAux, List.get?_cons_succ, List.take_succ_cons,
        List.foldl_cons]
      rw [ih, parseLineWith_snd]
      have harith : idx + 1 + n = idx + (n + 1) := by omega
      rw [harith]

/-!
Decomposition lemmas for the matchers: each successful match cuts the
input into literal pieces.
-/

theorem leadDigits_split (s ld r : List Char) (h : leadDigits s = some (ld, r)) :
    s = ld ++ ':' :: r ∧ ∀ c ∈ ld, c.isDigit = true := by
  unfold leadDigits at h
  split at h
  next a b c rest =>
    split at h
    next h1 =>
      simp only [Bool.and_eq_true, decide_eq_true_eq] at h1
      simp only [Option.some_inj, Prod.mk.injEq] at h
      obtain ⟨h2, h3⟩ := h
      subst h2 h3
      refine ⟨by simp [h1.2], ?_⟩
      intro x hx
      simp only [List.mem_cons, List.not_mem_nil, or_false] at hx
      rcases hx with rfl | rfl
      · exact h1.1.1
      · exact h1.1.2
    next =>
      split at h
      next h2 =>
        simp only [Bool.and_eq_true, decide_eq_true_eq] at h2
        simp only [Option.some_inj, Prod.mk.injEq] at h
        obtain ⟨h3, h4⟩ := h
        subst h3 h4
        refine ⟨by simp [h2.2], ?_⟩
        intro x hx
        simp only [List.mem_cons, List.not_mem_nil, or_false] at hx
        subst hx
        exact h2.1
      next => simp at h
  next a b =>
    split at h
    next h2 =>
      simp only [Bool.and_eq_true, decide_eq_true_eq] at h2
      simp only [Option.some_inj, Prod.mk.injEq] at h
      obtain ⟨h3, h4⟩ := h
      subst h3 h4
      refine ⟨by simp [h2.2], ?_⟩
      intro x hx
      simp only [List.mem_cons, List.not_mem_nil, or_false] at hx
      subst hx
      exact h2.1
    next => simp at h
  next => simp at h

theorem twoDigits_split (s md r : List Char) (h : twoDigits s = some (md, r)) :
    s = md ++ r ∧ ∀ c ∈ md, c.isDigit = true := by
  unfold twoDigits at h
  split at h
  next a b rest =>
    split at h
    next h1 =>
      simp only [Bool.and_eq_true] at h1
      simp only [Option.some_inj, Prod.mk.injEq] at h
      obtain ⟨h2, h3⟩ := h
      subst h2 h3
      refine ⟨rfl, ?_⟩
      intro x hx
      simp only [List.mem_cons, List.not_mem_nil, or_false] at hx
      rcases hx with rfl | rfl
      · exact h1.1
      · exact h1.2
    next => simp at h
  next => simp at h

theorem optSecs_split (s sd r : List Char) (h : optSecs s = some (sd, r)) :
    s = sd ++ r ∧ ∀ c ∈ sd, c.isDigit = true ∨ c = ':' := by
  unfold optSecs at h
  split at h
  next c d rest =>
    split at h
    next h1 =>
      simp only [Bool.and_eq_true] at h1
      simp only [Option.some_inj, Prod.mk.injEq] at h
      obtain ⟨h2, h3⟩ := h
      subst h2 h3
      refine ⟨rfl, ?_⟩
      intro x hx
      simp only [List.mem_cons, List.not_mem_nil, or_false] at hx
      rcases hx with rfl | rfl | rfl
      · exact Or.inr rfl
      · exact Or.inl h1.1
      · exact Or.inl h1.2
    next => simp at h
  next => simp at h

/-- A time-pattern match cuts the input as `t ++ r`, and the matched text
is made of digits and `':'` only. -/
theorem matchTimePat_split (s t r : List Char)
    (h : matchTimePat s = some (t, r)) :
    s = t ++ r ∧ ∀ c ∈ t, c.isDigit = true ∨ c = ':' := by
  unfold matchTimePat at h
  cases hld : leadDigits s with
  | none => rw [hld] at h; simp at h
  | some v =>
    obtain ⟨ld, r1⟩ := v
    rw [hld] at h
    simp only at h
    obtain ⟨hs, hldd⟩ := leadDigits_split s ld r1 hld
    cases htd : twoDigits r1 with
    | none => rw [htd] at h; simp at h
    | some w =>
      obtain ⟨md, r2⟩ := w
      rw [htd] at h
      simp only at h
      obtain ⟨hr1, hmdd⟩ := twoDigits_split r1 md r2 htd
      cases hos : optSecs r2 with
      | none =>
        rw [hos] at h
        simp only [Option.some_inj, Prod.mk.injEq] at h
        obtain ⟨h1, h2⟩ := h
        subst h1 h2
        constructor
        · rw [hs, hr1]; simp
        · intro x hx
          have hx' : x ∈ ld ∨ x = ':' ∨ x ∈ md := by
            simpa [List.mem_append, List.mem_cons] using hx
          rcases hx' with hx' | rfl | hx'
          · exact Or.inl (hldd x hx')
          · exact Or.inr rfl
          · exact Or.inl (hmdd x hx')
      | some u =>
        obtain ⟨sd, r3⟩ := u
        rw [hos] at h
        simp only [Option.some_inj, Prod.mk.injEq] at h
        obtain ⟨h1, h2⟩ := h
        subst h1 h2
        obtain ⟨hr2, hsdd⟩ := optSecs_split r2 sd r3 hos
        constructor
        · rw [hs, hr1, hr2]; simp
        · intro x hx
          have hx' : x ∈ ld ∨ x = ':' ∨ x ∈ md ∨ x ∈ sd := by
            simpa [List.mem_append, List.mem_cons, or_assoc] using hx
          rcases hx' with hx' | rfl | hx' | hx'
          · exact Or.inl (hldd x hx')
          · exact Or.inr rfl
          · exact Or.inl (hmdd x hx')
          · exact hsdd x hx'

theorem spkCoreP2_split : ∀ (s acc cap rest : List Char),
    spkCoreP2 acc s = some (cap, rest) →
    ∃ mid, cap = acc ++ mid ∧ s = mid ++ ':' :: rest ∧ ':' ∉ mid := by
  intro s
  induction s with
  | nil => intro acc cap rest h; simp [spkCoreP2] at h
  | cons c cs ih =>
    intro acc cap rest h
    unfold spkCoreP2 at h
    split at h
    next rest' heq =>
      injection heq with h1 h2
      subst h2
      simp only [Option.some_inj, Prod.mk.injEq] at h
      obtain ⟨hA, hB⟩ := h
      subst hA hB
      exact ⟨[], by simp, by simp [h1], by simp⟩
    next c' rest' hno heq =>
      injection heq with h1 h2
      subst h1 h2
      obtain ⟨mid, hcap, hcs, hmid⟩ := ih (acc ++ [c]) cap rest h
      have hc : c ≠ ':' := fun he => hno (by rw [he])
      refine ⟨c :: mid, by simp [hcap], by simp [hcs], ?_⟩
      simp only [List.mem_cons, not_or]
      exact ⟨fun he => hc he.symm, hmid⟩
    next heq => simp at heq

theorem afterSpkCore_split (s r : List Char) (h : afterSpkCore s = some r) :
    s = ':' :: r ∨ s = '*' :: '*' :: ':' :: r := by
  unfold afterSpkCore at h
  split at h
  · simp only [Option.some_inj] at h; subst h; exact Or.inr rfl
  · simp only [Option.some_inj] at h; subst h; exact Or.inl rfl
  · simp at h

theorem spkCoreTV_split : ∀ (s acc cap rest : List Char),
    spkCoreTV acc s = some (cap, rest) →
    ∃ mid y, cap = acc ++ mid ∧ mid ≠ [] ∧
      (∀ c ∈ mid, c ≠ '*' ∧ c ≠ ':') ∧ (y = [] ∨ y = ['*', '*']) ∧
      s = mid ++ y ++ ':' :: rest := by
  intro s
  induction s with
  | nil => intro acc cap rest h; simp [spkCoreTV] at h
  | cons c cs ih =>
    intro acc cap rest h
    unfold spkCoreTV at h
    split at h
    next hc => simp at h
    next hc =>
      simp only [Bool.or_eq_true, decide_eq_true_eq] at hc
      push_neg at hc
      cases hac : afterSpkCore cs with
      | some r' =>
        rw [hac] at h
        simp only [Option.some_inj, Prod.mk.injEq] at h
        obtain ⟨h1, h2⟩ := h
        subst h1 h2
        rcases afterSpkCore_split cs r' hac with hcs | hcs
        · exact ⟨[c], [], rfl, by simp, by simpa using hc, Or.inl rfl, by simp [hcs]⟩
        · exact ⟨[c], ['*', '*'], rfl, by simp, by simpa using hc, Or.inr rfl,
            by simp [hcs]⟩
      | none =>
        rw [hac] at h
        obtain ⟨mid, y, hcap, hne, hmid, hy, hcs⟩ := ih (acc ++ [c]) cap rest h
        refine ⟨c :: mid, y, by simp [hcap], by simp, ?_, hy, by simp [hcs]⟩
        intro x hx
        rcases List.mem_cons.mp hx with rfl | hx
        · exact hc
        · exact hmid x hx

theorem matchSpeakerTV_split (s cap rest : List Char)
    (h : matchSpeakerTV s = some (cap, rest)) :
    ∃ x y, (x = [] ∨ x = ['*', '*']) ∧ (y = [] ∨ y = ['*', '*']) ∧
      cap ≠ [] ∧ (∀ c ∈ cap, c ≠ '*' ∧ c ≠ ':') ∧
      s = x ++ cap ++ y ++ ':' :: rest := by
  unfold matchSpeakerTV at h
  split at h
  next cs =>
    cases hin : spkCoreTV [] cs with
    | some v =>
      obtain ⟨cap', rest'⟩ := v
      rw [hin] at h
      simp only [Option.some_inj, Prod.mk.injEq] at h
      obtain ⟨h1, h2⟩ := h
      subst h1 h2
      obtain ⟨mid, y, hcap, hne, hmid, hy, hcs⟩ :=
        spkCoreTV_split cs [] _ _ hin
      simp only [List.nil_append] at hcap
      subst hcap
      exact ⟨['*', '*'], y, Or.inr rfl, hy, hne, hmid, by simp [hcs]⟩
    | none =>
      rw [hin] at h
      exact absurd h (by simp [spkCoreTV])
  next hnb =>
    obtain ⟨mid, y, hcap, hne, hmid, hy, hcs⟩ := spkCoreTV_split s [] cap rest h
    simp only [List.nil_append] at hcap
    subst hcap
    exact ⟨[], y, Or.inl rfl, hy, hne, hmid, by simpa using hcs⟩

theorem dashTime_split (r1 t2 r3 : List Char)
    (h : dashTime r1 = some (t2, r3)) :
    ∃ w1 w2, (∀ c ∈ w1, isJsWs c = true) ∧ (∀ c ∈ w2, isJsWs c = true) ∧
      r1 = w1 ++ '-' :: w2 ++ t2 ++ r3 ∧
      ∀ c ∈ t2, c.isDigit = true ∨ c = ':' := by
  unfold dashTime at h
  split at h
  next r2 heq =>
    obtain ⟨hsp, ht2d⟩ := matchTimePat_split _ t2 r3 h
    obtain ⟨w2, hw2, hr2⟩ : ∃ w2, (∀ c ∈ w2, isJsWs c = true) ∧
        r2 = w2 ++ t2 ++ r3 :=
      ⟨r2.takeWhile isJsWs, fun c hc => List.mem_takeWhile_imp hc, by
        conv_lhs =>
          rw [← List.takeWhile_append_dropWhile (p := isJsWs) (l := r2)]
        rw [hsp]
        simp⟩
    obtain ⟨w1, hw1, hr1⟩ : ∃ w1, (∀ c ∈ w1, isJsWs c = true) ∧
        r1 = w1 ++ '-' :: r2 :=
      ⟨r1.takeWhile isJsWs, fun c hc => List.mem_takeWhile_imp hc, by
        conv_lhs =>
          rw [← List.takeWhile_append_dropWhile (p := isJsWs) (l := r1)]
        rw [heq]⟩
    refine ⟨w1, w2, hw1, hw2, ?_, ht2d⟩
    rw [hr1, hr2]
    simp
  next => simp at h

/-- A bracket match cuts the line as `'[' :: mid ++ ']' :: r`, where the
characters between the brackets are digits, `':'`, whitespace or `'-'`. -/
theorem matchBracket_split (line t1 r : List Char) (t2q : Option (List Char))
    (h : matchBracket line = some (t1, t2q, r)) :
    ∃ mid, line = '[' :: mid ++ ']' :: r ∧
      ∀ c ∈ mid, c.isDigit = true ∨ c = ':' ∨ isJsWs c = true ∨ c = '-' := by
  unfold matchBracket at h
  split at h
  next rr =>
    cases hmt : matchTimePat rr with
    | none => rw [hmt] at h; simp at h
    | some v =>
      obtain ⟨t1', r1⟩ := v
      rw [hmt] at h
      simp only at h
      obtain ⟨hrr, ht1d⟩ := matchTimePat_split rr t1' r1 hmt
      have ht1cls : ∀ c ∈ t1',
          c.isDigit = true ∨ c = ':' ∨ isJsWs c = true ∨ c = '-' := by
        intro c hc
        rcases ht1d c hc with hd | hd
        · exact Or.inl hd
        · exact Or.inr (Or.inl hd)
      split at h
      next t2 r4 heq =>
        simp only [Option.some_inj, Prod.mk.injEq] at h
        obtain ⟨hA, hB, hC⟩ := h
        subst hA hC
        obtain ⟨w1, w2, hw1, hw2, hr1, ht2d⟩ := dashTime_split r1 t2 _ heq
        refine ⟨t1' ++ w1 ++ '-' :: w2 ++ t2, ?_, ?_⟩
        · rw [hrr, hr1]
          simp
        · intro c hc
          have hc' : c ∈ t1' ∨ c ∈ w1 ∨ c = '-' ∨ c ∈ w2 ∨ c ∈ t2 := by
            simpa [List.mem_append, List.mem_cons, or_assoc] using hc
          rcases hc' with hc | hc | rfl | hc | hc
          · exact ht1cls c hc
          · exact Or.inr (Or.inr (Or.inl (hw1 c hc)))
          · exact Or.inr (Or.inr (Or.inr rfl))
          · exact Or.inr (Or.inr (Or.inl (hw2 c hc)))
          · rcases ht2d c hc with hd | hd
            · exact Or.inl hd
            · exact Or.inr (Or.inl hd)
      next hnm => simp at h
      next hdt =>
        split at h
        next r4 =>
          simp only [Option.some_inj, Prod.mk.injEq] at h
          obtain ⟨hA, hB, hC⟩ := h
          subst hA hC
          exact ⟨t1', by simp [hrr], ht1cls⟩
        next => simp at h
  next => simp at h

/-- The lazy scan to the first `']'` stops exactly at the first `']'`. -/
theorem lazyToRB_exact : ∀ (mid rest : List Char), ']' ∉ mid →
    lazyToRB (mid ++ ']' :: rest) = some (mid ++ [']']) := by
  intro mid
  induction mid with
  | nil => intro rest _; simp [lazyToRB]
  | cons c cs ih =>
    intro rest hmem
    simp only [List.mem_cons, not_or] at hmem
    have hc : c ≠ ']' := fun he => hmem.1 he.symm
    rw [List.cons_append]
    unfold lazyToRB
    rw [if_neg hc, ih rest hmem.2]
    rfl

/-- A segment line's first bracketed group (as `updateRow` rematches it)
is exactly the bracketed time range found by the segment regex. -/
theorem bracketPre_of_matchBracket (line t1 r : List Char)
    (t2q : Option (List Char)) (h : matchBracket line = some (t1, t2q, r)) :
    ∃ mid, line = ('[' :: mid ++ [']']) ++ r ∧
      bracketPre line = some ('[' :: mid ++ [']']) := by
  obtain ⟨mid, hline, hcls⟩ := matchBracket_split line t1 r t2q h
  have hnb : ']' ∉ mid := by
    intro hmem
    rcases hcls ']' hmem with hd | hd | hd | hd
    · simp [Char.isDigit] at hd
    · simp at hd
    · simp [isJsWs] at hd
    · simp at hd
  refine ⟨mid, by simp [hline], ?_⟩
  rw [hline]
  show (lazyToRB (mid ++ ']' :: r)).map ('[' :: ·) = some ('[' :: mid ++ [']'])
  rw [lazyToRB_exact mid r hnb]
  rfl

/-!
Splitting and joining lines.
-/

theorem splitOnChar_ne_nil (sep : Char) (s : List Char) :
    splitOnChar sep s ≠ [] := by
  cases s with
  | nil => simp [splitOnChar]
  | cons c cs =>
    unfold splitOnChar
    cases h : splitOnChar sep cs with
    | nil => simp
    | cons l ls =>
      by_cases hc : c = sep <;> simp [hc]

theorem splitOnChar_cons (sep c : Char) (cs l0 : List Char)
    (ls : List (List Char)) (h : splitOnChar sep cs = l0 :: ls) :
    splitOnChar sep (c :: cs) =
      if c = sep then [] :: l0 :: ls else (c :: l0) :: ls := by
  unfold splitOnChar
  rw [h]

/-- No piece returned by `split` contains the separator. -/
theorem splitOnChar_not_mem (sep : Char) :
    ∀ (s : List Char), ∀ l ∈ splitOnChar sep s, sep ∉ l := by
  intro s
  induction s with
  | nil =>
    intro l hl
    simp only [splitOnChar, List.mem_singleton] at hl
    subst hl
    simp
  | cons c cs ih =>
    intro l hl
    cases h : splitOnChar sep cs with
    | nil => exact absurd h (splitOnChar_ne_nil sep cs)
    | cons l0 ls =>
      rw [splitOnChar_cons sep c cs l0 ls h] at hl
      by_cases hc : c = sep
      · rw [if_pos hc] at hl
        rcases List.mem_cons.mp hl with rfl | hl
        · simp
        · exact ih l (h ▸ hl)
      · rw [if_neg hc] at hl
        rcases List.mem_cons.mp hl with rfl | hl
        · have hl0 : sep ∉ l0 := ih l0 (h ▸ List.mem_cons_self l0 ls)
          simp only [List.mem_cons, not_or]
          exact ⟨fun he => hc he.symm, hl0⟩
        · exact ih l (h ▸ List.mem_cons.mpr (Or.inr hl))

/-- A separator-free string splits to itself. -/
theorem splitOnChar_of_not_mem (sep : Char) :
    ∀ (s : List Char), sep ∉ s → splitOnChar sep s = [s] := by
  intro s
  induction s with
  | nil => intro _; rfl
  | cons c cs ih =>
    intro hmem
    simp only [List.mem_cons, not_or] at hmem
    have hc : c ≠ sep := fun he => hmem.1 he.symm
    rw [splitOnChar_cons sep c cs cs [] (ih hmem.2), if_neg hc]

/-- Splitting after a separator-free chunk peels the chunk off. -/
theorem splitOnChar_append_sep (sep : Char) :
    ∀ (l rest : List Char), sep ∉ l →
      splitOnChar sep (l ++ sep :: rest) = l :: splitOnChar sep rest := by
  intro l
  induction l with
  | nil =>
    intro rest _
    show splitOnChar sep (sep :: rest) = [] :: splitOnChar sep rest
    cases h : splitOnChar sep rest with
    | nil => exact absurd h (splitOnChar_ne_nil sep rest)
    | cons l0 ls => rw [splitOnChar_cons sep sep rest l0 ls h, if_pos rfl]
  | cons c cs ih =>
    intro rest hmem
    simp only [List.mem_cons, not_or] at hmem
    have hc : c ≠ sep := fun he => hmem.1 he.symm
    rw [List.cons_append]
    cases h : splitOnChar sep (cs ++ sep :: rest) with
    | nil => exact absurd h (splitOnChar_ne_nil sep _)
    | cons l0 ls =>
      rw [splitOnChar_cons sep c _ l0 ls h, if_neg hc]
      rw [ih rest hmem.2] at h
      injection h with h1 h2
      rw [h1, h2]

/-- `split('\n')` is a left inverse of `join('\n')` on non-empty lists of
newline-free lines. -/
theorem splitLines_joinNl : ∀ (ls : List (List Char)), ls ≠ [] →
    (∀ l ∈ ls, '\n' ∉ l) → splitLines (joinNl ls) = ls := by
  intro ls
  induction ls with
  | nil => intro h _; exact absurd rfl h
  | cons l ls ih =>
    intro _ hfree
    cases ls with
    | nil =>
      show splitLines (joinNl [l]) = [l]
      unfold joinNl
      exact splitOnChar_of_not_mem '\n' l (hfree l (List.mem_cons_self l []))
    | cons l2 ls2 =>
      show splitLines (l ++ '\n' :: joinNl (l2 :: ls2)) = l :: l2 :: ls2
      unfold splitLines
      rw [splitOnChar_append_sep '\n' l (joinNl (l2 :: ls2))
        (hfree l (List.mem_cons_self l (l2 :: ls2)))]
      have := ih (by simp) (fun x hx => hfree x (List.mem_cons.mpr (Or.inr hx)))
      unfold splitLines at this
      rw [this]

/-- Every line produced by `splitLines` is newline-free. -/
theorem splitLines_no_nl (s : List Char) : ∀ l ∈ splitLines s, '\n' ∉ l :=
  fun l hl => splitOnChar_not_mem '\n' s l hl

/-- The row id produced by one parser step is the line index, in every
branch and variant. -/
theorem parseLineWith_fst_id (tailF : List Char → SegTail)
    (smap : List Char → List Char) (off idx : Nat) (l : List Char) :
    (parseLineWith tailF smap off idx l).1.id = idx := by
  by_cases h : sepCond l = true
  · rw [parseLineWith_sep tailF smap off idx l h]
  · have h' : sepCond l = false := by simpa using h
    by_cases h2 : jsTrim l = []
    · rw [parseLineWith_blank tailF smap off idx l h2]
    · cases h3 : matchBracket l with
      | none => rw [parseLineWith_rawline tailF smap off idx l h' h2 h3]
      | some v =>
        obtain ⟨t1, t2q, r⟩ := v
        rw [parseLineWith_seg tailF smap off idx l h' h2 t1 t2q r h3]

/-- The id, kind and display time of a row do not depend on the
variant-specific speaker decomposition or speaker substitution. -/
theorem parseLineWith_proj_agree (tF tF' : List Char → SegTail)
    (sm sm' : List Char → List Char) (off idx : Nat) (l : List Char) :
    (parseLineWith tF sm off idx l).1.id = (parseLineWith tF' sm' off idx l).1.id ∧
    (parseLineWith tF sm off idx l).1.type = (parseLineWith tF' sm' off idx l).1.type ∧
    (parseLineWith tF sm off idx l).1.time = (parseLineWith tF' sm' off idx l).1.time := by
  by_cases h : sepCond l = true
  · rw [parseLineWith_sep tF sm off idx l h, parseLineWith_sep tF' sm' off idx l h]
    exact ⟨rfl, rfl, rfl⟩
  · have h' : sepCond l = false := by simpa using h
    by_cases h2 : jsTrim l = []
    · rw [parseLineWith_blank tF sm off idx l h2,
        parseLineWith_blank tF' sm' off idx l h2]
      exact ⟨rfl, rfl, rfl⟩
    · cases h3 : matchBracket l with
      | none =>
        rw [parseLineWith_rawline tF sm off idx l h' h2 h3,
          parseLineWith_rawline tF' sm' off idx l h' h2 h3]
        exact ⟨rfl, rfl, rfl⟩
      | some v =>
        obtain ⟨t1, t2q, r⟩ := v
        rw [parseLineWith_seg tF sm off idx l h' h2 t1 t2q r h3,
          parseLineWith_seg tF' sm' off idx l h' h2 t1 t2q r h3]
        exact ⟨rfl, rfl, rfl⟩

theorem rowsTV_get? (speakers : List Speaker) (text : List Char) (i : Nat) :
    (rowsTV speakers text).get? i =
      ((splitLines text).get? i).map
        (fun l => (parseLineWith segTailTV (applySpeakerMap speakers)
          (offsetInForce (splitLines text) i) i l).1) := by
  unfold rowsTV
  rw [parseRowsAux_get?]
  simp [offsetInForce]

theorem rowsP2_get? (text : List Char) (i : Nat) :
    (rowsP2 text).get? i =
      ((splitLines text).get? i).map
        (fun l => (parseLineWith segTailP2 (fun s => s)
          (offsetInForce (splitLines text) i) i l).1) := by
  unfold rowsP2
  rw [parseRowsAux_get?]
  simp [offsetInForce]

/-- A row can only be classified as a segment when the line is neither a
separator nor blank and the bracket pattern matches. -/
theorem parseLineWith_segment_inv (tailF : List Char → SegTail)
    (smap : List Char → List Char) (off idx : Nat) (l : List Char)
    (h : (parseLineWith tailF smap off idx l).1.type = .segment) :
    sepCond l = false ∧ jsTrim l ≠ [] ∧
      ∃ t1 t2q r, matchBracket l = some (t1, t2q, r) := by
  by_cases hs : sepCond l = true
  · rw [parseLineWith_sep tailF smap off idx l hs] at h
    simp at h
  · have hs' : sepCond l = false := by simpa using hs
    by_cases h2 : jsTrim l = []
    · rw [parseLineWith_blank tailF smap off idx l h2] at h
      simp at h
    · cases h3 : matchBracket l with
      | none =>
        rw [parseLineWith_rawline tailF smap off idx l hs' h2 h3] at h
        simp at h
      | some v =>
        obtain ⟨t1, t2q, r⟩ := v
        exact ⟨hs', h2, t1, t2q, r, rfl⟩

/-- Characters of the speaker and content produced by the TV tail
decomposition come from the decomposed string. -/
theorem segTailTV_chars (r : List Char) (c : Char) :
    (c ∈ (segTailTV r).speaker → c ∈ r) ∧
    (c ∈ (segTailTV r).content → c ∈ r) := by
  unfold segTailTV
  have hsub : ∀ x, x ∈ r.dropWhile isJsWs → x ∈ r :=
    fun x hx => (List.dropWhile_sublist isJsWs (l := r)).subset hx
  cases hm : matchSpeakerTV (r.dropWhile isJsWs) with
  | none =>
    simp only [hm]
    exact ⟨fun hc => by simp at hc, fun hc => hsub c hc⟩
  | some v =>
    obtain ⟨spk, rest⟩ := v
    obtain ⟨x, y, _, _, _, _, hr1⟩ := matchSpeakerTV_split _ spk rest hm
    simp only [hm]
    constructor
    · intro hc
      exact hsub c (by rw [hr1]; simp [hc])
    · intro hc
      have hc' : c ∈ rest := (List.dropWhile_sublist isJsWs (l := rest)).subset hc
      exact hsub c (by rw [hr1]; simp [hc'])

/-- Characters of the speaker and content produced by the P2 tail
decomposition come from the decomposed string. -/
theorem segTailP2_chars (r : List Char) (c : Char) :
    (c ∈ (segTailP2 r).speaker → c ∈ r) ∧
    (c ∈ (segTailP2 r).content → c ∈ r) := by
  unfold segTailP2
  have hsub : ∀ x, x ∈ r.dropWhile isJsWs → x ∈ r :=
    fun x hx => (List.dropWhile_sublist isJsWs (l := r)).subset hx
  cases hm : spkCoreP2 [] (r.dropWhile isJsWs) with
  | none =>
    simp only [hm]
    exact ⟨fun hc => by simp at hc, fun hc => hsub c hc⟩
  | some v =>
    obtain ⟨spk, rest⟩ := v
    obtain ⟨mid, hcap, hr1, _⟩ := spkCoreP2_split _ [] spk rest hm
    simp only [List.nil_append] at hcap
    subst hcap
    simp only [hm]
    constructor
    · intro hc
      exact hsub c (by rw [hr1]; simp [hc])
    · intro hc
      have hc' : c ∈ rest := (List.dropWhile_sublist isJsWs (l := rest)).subset hc
      exact hsub c (by rw [hr1]; simp [hc'])

/-- Digit characters for digits below ten. -/
theorem digitChar_isDigit : ∀ d < 10, (digitChar d).isDigit = true := by
  decide

/-- Every character of the decimal printer's output is a digit. -/
theorem natToChars_all_digits : ∀ (n : Nat), ∀ c ∈ natToChars n,
    c.isDigit = true := by
  intro n
  induction n using Nat.strong_induction_on with
  | _ n ih =>
    intro c hc
    rw [natToChars_eq] at hc
    by_cases hn : n < 10
    · rw [if_pos hn] at hc
      simp only [List.mem_singleton] at hc
      subst hc
      exact digitChar_isDigit n hn
    · rw [if_neg hn] at hc
      rcases List.mem_append.mp hc with hc | hc
      · exact ih (n / 10) (Nat.div_lt_self (by omega) (by omega)) c hc
      · simp only [List.mem_singleton] at hc
        subst hc
        exact digitChar_isDigit (n % 10) (Nat.mod_lt n (by omega))

theorem padStart2_digits (l : List Char) (h : ∀ c ∈ l, c.isDigit = true) :
    ∀ c ∈ padStart2 l, c.isDigit = true := by
  intro c hc
  match l, hc with
  | [], hc =>
    simp only [padStart2, List.mem_cons, List.not_mem_nil, or_false] at hc
    rcases hc with rfl | rfl <;> decide
  | [a], hc =>
    simp only [padStart2, List.mem_cons, List.not_mem_nil, or_false] at hc
    cases hc with
    | inl h0 => rw [h0]; decide
    | inr h1 => rw [h1]; exact h a (by simp)
  | a :: b :: t, hc => exact h c hc

/-- Every character of a formatted display time is a digit or `':'`. -/
theorem formatSecondsToTime_chars (n : Nat) :
    ∀ c ∈ formatSecondsToTime n, c.isDigit = true ∨ c = ':' := by
  intro c hc
  unfold formatSecondsToTime at hc
  simp only at hc
  split at hc
  · rcases List.mem_append.mp hc with hc | hc
    · rcases List.mem_append.mp hc with hc | hc
      · exact Or.inl (padStart2_digits _ (natToChars_all_digits _) c hc)
      · rcases List.mem_cons.mp hc with rfl | hc
        · exact Or.inr rfl
        · exact Or.inl (padStart2_digits _ (natToChars_all_digits _) c hc)
    · rcases List.mem_cons.mp hc with rfl | hc
      · exact Or.inr rfl
      · exact Or.inl (padStart2_digits _ (natToChars_all_digits _) c hc)
  · rcases List.mem_append.mp hc with hc | hc
    · exact Or.inl (padStart2_digits _ (natToChars_all_digits _) c hc)
    · rcases List.mem_cons.mp hc with rfl | hc
      · exact Or.inr rfl
      · exact Or.inl (padStart2_digits _ (natToChars_all_digits _) c hc)

/-- A formatted display time is never empty. -/
theorem formatSecondsToTime_ne_nil (n : Nat) : formatSecondsToTime n ≠ [] := by
  unfold formatSecondsToTime
  simp only
  split
  · cases hp : padStart2 (natToChars (n / 3600)) <;> simp
  · cases hp : padStart2 (natToChars (n % 3600 / 60)) with
    | nil =>
      exact absurd hp (by
        cases hnc : natToChars (n % 3600 / 60) with
        | nil => simp [padStart2]
        | cons a t => cases t <;> simp [padStart2])
    | cons a t => simp

theorem listGetD_get? {α : Type} (l : List α) (n : Nat) (d : α) :
    l.getD n d = (l.get? n).getD d := by
  simp [List.getD_eq_getElem?_getD, List.get?_eq_getElem?]

/-- Trimming only removes characters. -/
theorem mem_jsTrim {c : Char} {l : List Char} (h : c ∈ jsTrim l) : c ∈ l := by
  unfold jsTrim at h
  rw [List.mem_reverse] at h
  have h1 := (List.dropWhile_sublist isJsWs (l := (l.dropWhile isJsWs).reverse)).subset h
  rw [List.mem_reverse] at h1
  exact (List.dropWhile_sublist isJsWs (l := l)).subset h1

/-- Removing `---` runs only removes characters. -/
theorem mem_removeTripleDash {c : Char} :
    ∀ {l : List Char}, c ∈ removeTripleDash l → c ∈ l := by
  intro l
  induction l using removeTripleDash.induct with
  | case1 r ih =>
    intro h
    rw [show removeTripleDash ('-' :: '-' :: '-' :: r) = removeTripleDash r
      from rfl] at h
    simp [ih h]
  | case2 a r hne ih =>
    intro h
    rw [removeTripleDash.eq_def] at h
    split at h
    next r2 heq =>
      injection heq with h1 h2
      exact (hne r2 h1 h2).elim
    next c' r' hno heq =>
      injection heq with h1 h2
      subst h1 h2
      rcases List.mem_cons.mp h with rfl | h
      · exact List.mem_cons_self _ _
      · exact List.mem_cons.mpr (Or.inr (ih h))
    next heq => simp at heq
  | case3 =>
    intro h
    simp [removeTripleDash] at h

/-- The speaker and content of a row of the P2 parser draw their
characters from the parsed line. -/
theorem rowsP2_row_chars (off idx : Nat) (l : List Char) (c : Char)
    (hl : c ∉ l) :
    c ∉ (parseLineWith segTailP2 (fun s => s) off idx l).1.speaker ∧
    c ∉ (parseLineWith segTailP2 (fun s => s) off idx l).1.content := by
  by_cases hs : sepCond l = true
  · rw [parseLineWith_sep _ _ _ _ _ hs]
    constructor
    · simp
    · intro hc
      simp only at hc
      exact hl (mem_jsTrim (mem_removeTripleDash (mem_jsTrim hc)))
  · have hs' : sepCond l = false := by simpa using hs
    by_cases h2 : jsTrim l = []
    · rw [parseLineWith_blank _ _ _ _ _ h2]
      constructor <;> simp
    · cases h3 : matchBracket l with
      | none =>
        rw [parseLineWith_rawline _ _ _ _ _ hs' h2 h3]
        exact ⟨by simp, hl⟩
      | some v =>
        obtain ⟨t1, t2q, r⟩ := v
        rw [parseLineWith_seg _ _ _ _ _ hs' h2 t1 t2q r h3]
        obtain ⟨mid, hline, _⟩ := matchBracket_split l t1 r t2q h3
        have hr : c ∉ r := fun hc => hl (by rw [hline]; simp [hc])
        have htl := segTailP2_chars r c
        exact ⟨fun hc => hr (htl.1 hc), fun hc => hr (htl.2 hc)⟩

/-- The local (pre-offset) time string the amended C4 claim specifies:
the user-entered start (and end, when a non-empty second dash-separated
part is present) parsed to seconds, minus the effective offset, clamped
at zero, re-formatted. -/
def relTimeOf (off : Nat) (value : List Char) : List Char :=
  let parts := (splitOnChar '-' value).map jsTrim
  let startLocal := (max 0 ((parseTimeToSeconds (parts.headD []) : Int) - off)).toNat
  match parts.get? 1 with
  | some p1 =>
    if p1 = [] then formatSecondsToTime startLocal
    else
      formatSecondsToTime startLocal ++ ' ' :: '-' :: ' ' ::
        formatSecondsToTime ((max 0 ((parseTimeToSeconds p1 : Int) - off)).toNat)
  | none => formatSecondsToTime startLocal

theorem int_clamp_toNat (a b : Nat) : (max 0 ((a : Int) - b)).toNat = a - b := by
  omega

/-- The backward scan of the P2 time edit finds the declared start of the
last row at or before index `i` that is a separator with a parsable
`Start:` marker. -/
theorem effectiveOffsetP2_eq_findSome? (rows : List RowData) :
    ∀ i : Nat, effectiveOffsetP2 rows i =
      (((rows.take (i + 1)).reverse.findSome? sepStartOf).getD 0) := by
  intro i
  induction i with
  | zero =>
    unfold effectiveOffsetP2
    cases rows with
    | nil => rfl
    | cons r0 rest =>
      simp only [List.take_succ_cons, List.take_zero, List.reverse_cons,
        List.reverse_nil, List.nil_append, List.findSome?]
      cases h : sepStartOf r0 <;> simp [h, List.findSome?]
  | succ i ih =>
    rw [show effectiveOffsetP2 rows (i + 1) =
        (match (rows.get? (i + 1)).bind sepStartOf with
         | some v => v
         | none => effectiveOffsetP2 rows i) from rfl]
    cases hg : rows.get? (i + 1) with
    | none =>
      have hlen : rows.length ≤ i + 1 := by
        by_contra hlt
        push_neg at hlt
        exact absurd hg (by
          rw [List.get?_eq_get hlt]
          simp)
      have htake : rows.take (i + 1 + 1) = rows.take (i + 1) := by
        rw [List.take_of_length_le hlen, List.take_of_length_le (by omega)]
      simp only [Option.none_bind]
      rw [ih, htake]
    | some ri =>
      have htake : rows.take (i + 1 + 1) = rows.take (i + 1) ++ [ri] := by
        rw [List.get?_eq_getElem?] at hg
        rw [List.take_succ, hg]
        rfl
      rw [htake]
      simp only [List.reverse_append, List.reverse_singleton,
        List.singleton_append, List.findSome?, Option.some_bind]
      cases h : sepStartOf ri with
      | some v => simp [h]
      | none => simp [h, ih]

/-- `relTimeOf` agrees with the computation done by the P2 time branch. -/
theorem relTimeOf_eq_code (off : Nat) (value : List Char) :
    relTimeOf off value =
      match (match ((splitOnChar '-' value).map jsTrim).get? 1 with
             | some p1 => if p1 = [] then none else some (parseTimeToSeconds p1)
             | none => (none : Option Nat)) with
      | none => formatSecondsToTime
          (parseTimeToSeconds (((splitOnChar '-' value).map jsTrim).headD [])
            - off)
      | some e => formatSecondsToTime
          (parseTimeToSeconds (((splitOnChar '-' value).map jsTrim).headD [])
            - off) ++
          ' ' :: '-' :: ' ' :: formatSecondsToTime (e - off) := by
  unfold relTimeOf
  simp only [int_clamp_toNat]
  cases h : ((splitOnChar '-' value).map jsTrim).get? 1 with
  | none => simp [h]
  | some p1 =>
    by_cases hp : p1 = []
    · simp [h, hp]
    · simp [h, hp]

/-- C4 (amended): in the P2 component the time edit determines the
effective offset by scanning backward from row `i` for the nearest row at
or before `i` that is a separator with a parsable `Start:` declaration
(0 when there is none — a separator with an unparseable declaration is
passed over rather than stopping the scan), subtracts that offset from
the user-entered start (and end, when given) clamping at zero, writes the
re-formatted local time into raw-text line `i`, and leaves every other
line unchanged; the TranscriptionView.tsx variant instead writes the
user-entered time into line `i` verbatim, with no offset subtraction. -/
theorem claimC4_amended_time_edit (text value : List Char) (i : Nat)
    (row : RowData)
    (hrow : (rowsP2 text).get? i = some row)
    (hseg : row.type = RowType.segment) :
    (updateRowP2 text i EditField.time value =
      joinNl ((splitLines text).set i
        ('[' :: relTimeOf (effectiveOffsetP2 (rowsP2 text) i) value ++
          ']' :: ' ' :: (spkPre row.speaker ++ row.content)))) ∧
    (effectiveOffsetP2 (rowsP2 text) i =
      ((((rowsP2 text).take (i + 1)).reverse.findSome? sepStartOf).getD 0)) ∧
    (∀ j, j ≠ i →
      (splitLines (updateRowP2 text i EditField.time value)).get? j =
        (splitLines text).get? j) ∧
    (∀ rowT, (rowsTV [] text).get? i = some rowT →
      rowT.type = RowType.segment →
      updateRowTV [] text i EditField.time value =
        joinNl ((splitLines text).set i
          ('[' :: value ++ ']' :: ' ' ::
            (spkPre rowT.speaker ++ rowT.content)))) := by
  have hupd : updateRowP2 text i EditField.time value =
      joinNl ((splitLines text).set i
        ('[' :: relTimeOf (effectiveOffsetP2 (rowsP2 text) i) value ++
          ']' :: ' ' :: (spkPre row.speaker ++ row.content))) := by
    unfold updateRowP2
    simp only [hrow]
    rw [if_neg (by simp [hseg])]
    rw [relTimeOf_eq_code]
    rfl
  refine ⟨hupd, effectiveOffsetP2_eq_findSome? (rowsP2 text) i, ?_, ?_⟩
  · intro j hj
    rw [hupd]
    -- the replaced line is newline-free
    have hrowchars : '\n' ∉ row.speaker ∧ '\n' ∉ row.content := by
      rw [rowsP2_get?] at hrow
      cases hl : (splitLines text).get? i with
      | none => rw [hl] at hrow; simp at hrow
      | some l =>
        rw [hl] at hrow
        simp only [Option.map_some', Option.some_inj] at hrow
        rw [← hrow]
        exact rowsP2_row_chars _ _ l '\n'
          (splitLines_no_nl text l (List.get?_mem hl))
    have hnl_rel : '\n' ∉ relTimeOf (effectiveOffsetP2 (rowsP2 text) i) value := by
      intro hc
      unfold relTimeOf at hc
      simp only at hc
      have hfmt : ∀ m : Nat, '\n' ∉ formatSecondsToTime m := by
        intro m hm
        rcases formatSecondsToTime_chars m '\n' hm with hd | hd
        · simp [Char.isDigit] at hd
        · simp at hd
      split at hc
      next p1 heq =>
        split at hc
        · exact hfmt _ hc
        · rcases List.mem_append.mp hc with hc | hc
          · exact hfmt _ hc
          · rcases List.mem_cons.mp hc with hcc | hc
            · simp at hcc
            · rcases List.mem_cons.mp hc with hcc | hc
              · simp at hcc
              · rcases List.mem_cons.mp hc with hcc | hc
                · simp at hcc
                · exact hfmt _ hc
      next heq => exact hfmt _ hc
    have hset : splitLines (joinNl ((splitLines text).set i
        ('[' :: relTimeOf (effectiveOffsetP2 (rowsP2 text) i) value ++
          ']' :: ' ' :: (spkPre row.speaker ++ row.content)))) =
        (splitLines text).set i
          ('[' :: relTimeOf (effectiveOffsetP2 (rowsP2 text) i) value ++
            ']' :: ' ' :: (spkPre row.speaker ++ row.content)) := by
      apply splitLines_joinNl
      · intro hemp
        have := congrArg List.length hemp
        simp only [List.length_set, List.length_nil] at this
        exact splitOnChar_ne_nil '\n' text (List.length_eq_zero.mp this)
      · intro x hx
        rcases List.mem_or_eq_of_mem_set hx with hx | rfl
        · exact splitLines_no_nl text x hx
        · intro hc
          rcases List.mem_cons.mp hc with hcc | hc
          · simp at hcc
          · rcases List.mem_append.mp hc with hc | hc
            · exact hnl_rel hc
            · rcases List.mem_cons.mp hc with hcc | hc
              · simp at hcc
              · rcases List.mem_cons.mp hc with hcc | hc
                · simp at hcc
                · rcases List.mem_append.mp hc with hc | hc
                  · unfold spkPre at hc
                    split at hc
                    · simp at hc
                    · rcases List.mem_append.mp hc with hc | hc
                      · exact hrowchars.1 hc
                      · rcases List.mem_cons.mp hc with hcc | hc
                        · simp at hcc
                        · rcases List.mem_cons.mp hc with hcc | hc
                          · simp at hcc
                          · simp at hc
                  · exact hrowchars.2 hc
    rw [hset]
    exact List.get?_set_ne _ _ (fun he => hj he.symm)
  · intro rowT hrowT hsegT
    unfold updateRowTV
    simp only [hrowT]
    rw [if_neg (by simp [hsegT])]
    simp

/-- C4 counterexample: with a separator declaring `Start: 01:00` followed
by a separator with no `Start:` declaration, the claim says an edit of
the next segment's time to `00:30` stores `00:30` (nearest preceding
separator unparseable, offset 0), but the P2 code skips the unparseable
separator, uses the 60-second offset of the earlier one and stores
`00:00`; the claim as stated is therefore false on this input. -/
theorem claimC4_counterexample :
    updateRowP2
        "--- [a | Start: 01:00] ---\n--- [b] ---\n[00:05] x".data 2
        EditField.time "00:30".data =
      joinNl ((splitLines
        "--- [a | Start: 01:00] ---\n--- [b] ---\n[00:05] x".data).set 2
        "[00:00] x".data) ∧
    updateRowP2
        "--- [a | Start: 01:00] ---\n--- [b] ---\n[00:05] x".data 2
        EditField.time "00:30".data ≠
      joinNl ((splitLines
        "--- [a | Start: 01:00] ---\n--- [b] ---\n[00:05] x".data).set 2
        "[00:30] x".data) := by
  constructor
  · decide
  · decide

/-- Witness for C4 (amended) at a concrete input. -/
theorem claimC4_amended_time_edit_witness :
    updateRowP2 "--- [a | Start: 01:00] ---\n[00:05] x".data 1
        EditField.time "01:30".data =
      joinNl ((splitLines "--- [a | Start: 01:00] ---\n[00:05] x".data).set 1
        ('[' :: relTimeOf (effectiveOffsetP2
            (rowsP2 "--- [a | Start: 01:00] ---\n[00:05] x".data) 1)
            "01:30".data ++
          ']' :: ' ' :: (spkPre [] ++ "x".data))) :=
  (claimC4_amended_time_edit "--- [a | Start: 01:00] ---\n[00:05] x".data
    "01:30".data 1 ⟨1, .segment, "01:05".data, [], "x".data, "[01:05] x".data⟩
    (by decide) rfl).1

/-!
SRT export: the counter loop is an enumeration of the segment rows.
-/

/-- A string with no whitespace at either end (in particular none at all)
trims to itself, and trailing whitespace after such a string is removed. -/
theorem jsTrim_append_ws (l w : List Char) (hl : ∀ c ∈ l, isJsWs c = false)
    (hw : ∀ c ∈ w, isJsWs c = true) : jsTrim (l ++ w) = l := by
  unfold jsTrim
  cases l with
  | nil =>
    simp only [List.nil_append]
    rw [List.dropWhile_eq_nil_iff.mpr (fun x hx => hw x hx)]
    rfl
  | cons c cs =>
    have hc : isJsWs c = false := hl c (by simp)
    rw [List.cons_append, List.dropWhile_cons, hc]
    simp only [Bool.false_eq_true, if_false, List.reverse_cons,
      List.reverse_append]
    rw [List.dropWhile_append, List.dropWhile_append]
    rw [List.dropWhile_eq_nil_iff.mpr (fun x hx => hw x (List.mem_reverse.mp hx))]
    simp only [List.isEmpty_nil, if_true]
    cases hr : cs.reverse with
    | nil =>
      have hcs : cs = [] := by simpa using congrArg List.reverse hr
      subst hcs
      simp [List.dropWhile_cons, hc]
    | cons d ds =>
      have hd : isJsWs d = false := by
        apply hl
        have hdm : d ∈ cs.reverse := by rw [hr]; simp
        simp only [List.mem_reverse] at hdm
        simp [hdm]
      have hdw : List.dropWhile isJsWs (d :: ds) = d :: ds := by
        rw [List.dropWhile_cons, hd]
        simp
      rw [hdw]
      simp only [List.isEmpty_cons, Bool.false_eq_true, if_false]
      rw [← hr]
      simp

theorem jsTrim_of_no_ws (l : List Char) (hl : ∀ c ∈ l, isJsWs c = false) :
    jsTrim l = l := by
  have := jsTrim_append_ws l [] hl (by simp)
  simpa using this

/-- Digits and `':'` are not whitespace and not `'-'`. -/
theorem fmt_chars_plain (n : Nat) :
    ∀ c ∈ formatSecondsToTime n, isJsWs c = false ∧ c ≠ '-' := by
  intro c hc
  rcases formatSecondsToTime_chars n c hc with hd | hd
  · constructor
    · by_contra hws
      simp only [Bool.not_eq_false] at hws
      simp only [isJsWs, Bool.or_eq_true, decide_eq_true_eq] at hws
      rcases hws with
        (((((((rfl | rfl) | rfl) | rfl) | rfl) | rfl) | rfl) | rfl) <;>
        exact absurd hd (by decide)
    · rintro rfl
      exact absurd hd (by decide)
  · subst hd
    exact ⟨by decide, by decide⟩

/-- The first dash-separated, trimmed piece of a segment display time is
the formatted start time (never empty). -/
theorem timeDisplay_first_part (off : Nat) (t1 : List Char)
    (t2q : Option (List Char)) :
    jsTrim ((splitOnChar '-' (timeDisplay off t1 t2q)).headD []) =
      formatSecondsToTime (parseTimeToSeconds t1 + off) := by
  unfold timeDisplay
  cases t2q with
  | none =>
    simp only
    rw [splitOnChar_of_not_mem '-' _
      (fun hm => ((fmt_chars_plain _ '-' hm).2 rfl))]
    exact jsTrim_of_no_ws _ (fun c hc => (fmt_chars_plain _ c hc).1)
  | some t2 =>
    simp only
    have hshape : formatSecondsToTime (parseTimeToSeconds t1 + off) ++
        ' ' :: '-' :: ' ' :: formatSecondsToTime (parseTimeToSeconds t2 + off) =
        (formatSecondsToTime (parseTimeToSeconds t1 + off) ++ [' ']) ++
          '-' :: (' ' :: formatSecondsToTime (parseTimeToSeconds t2 + off)) := by
      simp
    rw [hshape, splitOnChar_append_sep '-' _ _ (by
      intro hm
      rcases List.mem_append.mp hm with hm | hm
      · exact (fmt_chars_plain _ '-' hm).2 rfl
      · simp at hm)]
    simp only [List.headD_cons]
    exact jsTrim_append_ws _ [' ']
      (fun c hc => (fmt_chars_plain _ c hc).1) (by simp [isJsWs])

/-- The cue the amended SRT description emits for the `n`-th segment row:
start and end re-parsed from the display time, end defaulting to
start + 5 when absent and forced to start + 3 when not after the start,
`HH:MM:SS,mmm --> HH:MM:SS,mmm` timing, `speaker: content` text, and a
blank line after the cue. -/
def srtCue (n : Nat) (row : RowData) : List Char :=
  let timeParts := (splitOnChar '-' row.time).map jsTrim
  let startSec := parseTimeToSeconds (timeParts.headD [])
  let endSec0 :=
    match timeParts.get? 1 with
    | some p1 => if p1 = [] then startSec + 5 else parseTimeToSeconds p1
    | none => startSec + 5
  let endSec := if endSec0 ≤ startSec then startSec + 3 else endSec0
  natToChars n ++ '\n' ::
    (formatSecondsToSRTTimestamp startSec ++ ' ' :: '-' :: '-' :: '>' :: ' ' ::
      formatSecondsToSRTTimestamp endSec) ++ '\n' ::
    srtEntryText row ++ ['\n', '\n']

/-- The SRT output the claim describes: exactly the segment rows,
enumerated from 1, rendered by `srtCue`. -/
def srtSpec (rows : List RowData) : List Char :=
  (((rows.filter fun r => decide (r.type = RowType.segment)).enumFrom 1).map
    (fun p => srtCue p.1 p.2)).join

/-- The counter loop of `handleDownloadSRT` equals the enumeration of the
segment rows whenever no segment row has an empty first time part (the
loop's silent skip never fires). -/
theorem srtAux_eq_enum (rows : List RowData) :
    ∀ counter : Nat,
    (∀ r ∈ rows, r.type = RowType.segment →
      jsTrim ((splitOnChar '-' r.time).headD []) ≠ []) →
    srtAux counter rows =
      (((rows.filter fun r => decide (r.type = RowType.segment)).enumFrom
        counter).map (fun p => srtCue p.1 p.2)).join := by
  induction rows with
  | nil => intro counter _; rfl
  | cons r rest ih =>
    intro counter hok
    by_cases hseg : r.type = RowType.segment
    · have hne := hok r (by simp) hseg
      unfold srtAux
      rw [if_neg (by simp [hseg])]
      cases hsp : splitOnChar '-' r.time with
      | nil => exact absurd hsp (splitOnChar_ne_nil '-' r.time)
      | cons q qs =>
        simp only [List.map_cons]
        rw [if_neg (by
          rw [hsp] at hne
          simpa using hne)]
        rw [List.filter_cons_of_pos (by simp [hseg]), List.enumFrom_cons,
          List.map_cons, List.join]
        rw [ih (counter + 1)
          (fun x hx hxseg => hok x (List.mem_cons.mpr (Or.inr hx)) hxseg)]
        unfold srtCue
        simp only [hsp, List.map_cons, List.headD_cons, List.get?_cons_succ]
        cases qs with
        | nil => simp
        | cons q1 qrest => simp
    · unfold srtAux
      rw [if_pos (by simp [hseg])]
      rw [List.filter_cons_of_neg (by simp [hseg])]
      exact ih counter
        (fun x hx hxseg => hok x (List.mem_cons.mpr (Or.inr hx)) hxseg)

/-- Segment rows of the TV parser always carry a non-empty first time
part. -/
theorem rowsTV_segment_time_ok (speakers : List Speaker) (text : List Char) :
    ∀ r ∈ rowsTV speakers text, r.type = RowType.segment →
      jsTrim ((splitOnChar '-' r.time).headD []) ≠ [] := by
  intro r hr hseg
  obtain ⟨n, hn⟩ := List.mem_iff_get?.mp hr
  rw [rowsTV_get?] at hn
  cases hl : (splitLines text).get? n with
  | none => rw [hl] at hn; simp at hn
  | some l =>
    rw [hl] at hn
    simp only [Option.map_some', Option.some_inj] at hn
    have htype : (parseLineWith segTailTV (applySpeakerMap speakers)
        (offsetInForce (splitLines text) n) n l).1.type = .segment := by
      rw [hn]; exact hseg
    obtain ⟨hsep, hne, t1, t2q, rr, hbr⟩ :=
      parseLineWith_segment_inv _ _ _ _ _ htype
    have htime : r.time = timeDisplay (offsetInForce (splitLines text) n)
        t1 t2q := by
      rw [← hn, parseLineWith_seg _ _ _ _ _ hsep hne t1 t2q rr hbr]
    rw [htime, timeDisplay_first_part]
    exact formatSecondsToTime_ne_nil _

/-- C6: SRT export emits exactly the segment rows of the parsed text,
numbered from 1; cue times are re-parsed from the display time string
with end defaulting to start + 5 and forced to start + 3 when not after
the start; timing lines are `HH:MM:SS,mmm --> HH:MM:SS,mmm`; cue text is
`speaker: content` when a speaker is present; entries are separated by a
blank line.  The single-segment example yields the cue timing of the
specification. -/
theorem claimC6_srt_export (speakers : List Speaker) (text : List Char) :
    handleDownloadSRT (rowsTV speakers text) =
      srtSpec (rowsTV speakers text) ∧
    handleDownloadSRT (rowsTV [] "[00:10] A: hi".data) =
      "1\n00:00:10,000 --> 00:00:15,000\nA: hi\n\n".data := by
  constructor
  · exact srtAux_eq_enum (rowsTV speakers text) 1
      (rowsTV_segment_time_ok speakers text)
  · decide

/-!
CSV export.
-/

/-- A quote-wrapped CSV field. -/
def csvField (s : List Char) : List Char := '"' :: s ++ ['"']

/-- The per-row CSV output of the amended claim: segment rows put the
display time, the speaker and the content in the three columns, all
quote-wrapped but with internal quotes doubled in the content column
only; separator rows put their full raw line (not their stripped
content) in the third column; non-blank raw rows put their content in
the third column; blank raw rows produce nothing. -/
def csvRowSpec (row : RowData) : List Char :=
  match row.type with
  | .segment =>
    csvField row.time ++ ',' :: csvField row.speaker ++ ',' ::
      csvField (escQuotes row.content) ++ ['\n']
  | .separator => ',' :: ',' :: csvField (escQuotes row.rawLine) ++ ['\n']
  | .raw =>
    if jsTrim row.content ≠ [] then
      ',' :: ',' :: csvField (escQuotes row.content) ++ ['\n']
    else []

theorem csvRowChunk_eq_spec (row : RowData) :
    csvRowChunk row = csvRowSpec row := by
  unfold csvRowChunk csvRowSpec csvField
  cases row.type <;> simp

theorem foldl_append_chunks (f : RowData → List Char) :
    ∀ (rows : List RowData) (acc : List Char),
      rows.foldl (fun a r => a ++ f r) acc = acc ++ (rows.map f).join := by
  intro rows
  induction rows with
  | nil => intro acc; simp
  | cons r rest ih =>
    intro acc
    simp only [List.foldl_cons, List.map_cons, List.join]
    rw [ih]
    simp

/-- C7 counterexample: on a lone separator line the claim predicts the
row's stripped content `[x]` in the third column, but the code emits the
full raw line `--- [x] ---`; and on a segment whose speaker contains a
double quote the claim predicts doubled quotes in the speaker column,
but the code leaves the speaker column unescaped. -/
theorem claimC7_counterexample :
    (handleDownloadCSV (rowsTV [] "--- [x] ---".data) =
      csvLead ++ ",,\"--- [x] ---\"\n".data ∧
     handleDownloadCSV (rowsTV [] "--- [x] ---".data) ≠
      csvLead ++ ",,\"[x]\"\n".data) ∧
    (handleDownloadCSV (rowsTV [] "[00:05] a\"b: hi".data) =
      csvLead ++ "\"00:05\",\"a\"b\",\"hi\"\n".data ∧
     handleDownloadCSV (rowsTV [] "[00:05] a\"b: hi".data) ≠
      csvLead ++ "\"00:05\",\"a\"\"b\",\"hi\"\n".data) := by
  exact ⟨⟨by decide, by decide⟩, ⟨by decide, by decide⟩⟩

/-- C7 (amended): the CSV export is the data-URI prefix, then the UTF-8
byte-order mark, then the header `Time,Speaker,Content`, then one
`csvRowSpec` chunk per row in order: all values quote-wrapped, internal
double quotes doubled in the third column only, separator rows
contributing their full raw line and non-blank raw rows their content in
the third column. -/
theorem claimC7_amended_csv_export (rows : List RowData) :
    handleDownloadCSV rows =
      ("data:text/csv;charset=utf-8,".data ++ '\uFEFF' ::
        "Time,Speaker,Content\n".data) ++ (rows.map csvRowSpec).join := by
  unfold handleDownloadCSV
  rw [foldl_append_chunks csvRowChunk rows csvLead]
  have hlead : csvLead = "data:text/csv;charset=utf-8,".data ++ '\uFEFF' ::
      "Time,Speaker,Content\n".data := by decide
  rw [hlead]
  congr 1
  exact congrArg List.join (List.map_congr_left (fun r _ => csvRowChunk_eq_spec r))

/-!
CSV import.
-/

/-- The column policy of the claim: three or more columns give
(time, speaker, content) with the columns from the third on re-joined
with commas into content; exactly two give (time, content); one gives
content only. -/
def importColumns (cols : List (List Char)) :
    List Char × List Char × List Char :=
  if cols.length ≥ 3 then
    (cols.headD [], (cols.get? 1).getD [],
      if cols.length > 3 then joinComma (cols.drop 2) else (cols.get? 2).getD [])
  else if cols.length = 2 then (cols.headD [], [], (cols.get? 1).getD [])
  else if cols.length = 1 then ([], [], cols.headD [])
  else ([], [], [])

/-- One line of the import per the amended claim: blank lines and lines
starting with `---` are skipped; within the first 5 raw lines a line
whose first column case-insensitively matches a time header token is
skipped; otherwise the trimmed columns are emitted as
`[time] speaker: content` (bracket-wrapping the time when needed,
omitting `speaker:` when empty), or as a bare content line, or dropped
when neither time nor content remain. -/
def importSpecLine (i : Nat) (rawLine : List Char) : Option (List Char) :=
  let line := jsTrim rawLine
  if line = [] then none
  else if beginsWith "---".data line then none
  else
    let cols := csvSplitFields false [] line
    let c0 := stripEdgeQuotes (jsTrim ((cols.headD []).map Char.toLower))
    if i < 5 ∧ (c0 = "time".data ∨ c0 = "時間".data ∨
        beginsWith "time".data c0 = true) then none
    else
      let cleanTime := jsTrim (importColumns cols).1
      let cleanSpeaker := jsTrim (importColumns cols).2.1
      let cleanContent := jsTrim (importColumns cols).2.2
      if cleanTime ≠ [] then
        some ((if beginsWith "[".data cleanTime then cleanTime
          else '[' :: cleanTime ++ [']']) ++
          ' ' :: (spkPre cleanSpeaker ++ cleanContent) ++ ['\n'])
      else if cleanContent ≠ [] then some (cleanContent ++ ['\n'])
      else none

/-- The import output the amended claim describes: strip the BOM,
normalize line endings, process each line with its raw index, return the
concatenated emissions and their count. -/
def importSpec (rawText : List Char) : List Char × Nat :=
  let input := match rawText with | '\uFEFF' :: r => r | _ => rawText
  let lines := splitLines (replCR (replCRLF input))
  let pieces := lines.enum.filterMap (fun p => importSpecLine p.1 p.2)
  (pieces.join, pieces.length)

theorem importLineOut_eq_spec (i : Nat) (rawLine : List Char) :
    importLineOut i rawLine = importSpecLine i rawLine := by
  unfold importLineOut importSpecLine
  by_cases h1 : jsTrim rawLine = []
  · simp only [h1, ite_true]
  · simp only [h1, ite_false]
    by_cases h2 : beginsWith "---".data (jsTrim rawLine) = true
    · simp only [h2, ite_true]
    · simp only [h2, ite_false]
      have hhdr : (if i < 5 then
          (stripEdgeQuotes (jsTrim (((csvSplitFields false []
              (jsTrim rawLine)).headD []).map Char.toLower)) = "time".data ||
            stripEdgeQuotes (jsTrim (((csvSplitFields false []
              (jsTrim rawLine)).headD []).map Char.toLower)) = "時間".data ||
            beginsWith "time".data (stripEdgeQuotes (jsTrim (((csvSplitFields
              false [] (jsTrim rawLine)).headD []).map Char.toLower))))
          else false) = true ↔
          (i < 5 ∧ (stripEdgeQuotes (jsTrim (((csvSplitFields false []
              (jsTrim rawLine)).headD []).map Char.toLower)) = "time".data ∨
            stripEdgeQuotes (jsTrim (((csvSplitFields false []
              (jsTrim rawLine)).headD []).map Char.toLower)) = "時間".data ∨
            beginsWith "time".data (stripEdgeQuotes (jsTrim (((csvSplitFields
              false [] (jsTrim rawLine)).headD []).map Char.toLower))) = true)) := by
        by_cases h5 : i < 5 <;> simp [h5, or_assoc]
      by_cases hh : i < 5 ∧ (stripEdgeQuotes (jsTrim (((csvSplitFields false []
          (jsTrim rawLine)).headD []).map Char.toLower)) = "time".data ∨
          stripEdgeQuotes (jsTrim (((csvSplitFields false []
            (jsTrim rawLine)).headD []).map Char.toLower)) = "時間".data ∨
          beginsWith "time".data (stripEdgeQuotes (jsTrim (((csvSplitFields
            false [] (jsTrim rawLine)).headD []).map Char.toLower))) = true)
      · rw [if_pos (hhdr.mpr hh), if_pos hh]
      · rw [if_neg (fun hb => hh (hhdr.mp hb)), if_neg hh]
        unfold importColumns
        by_cases h3 : (csvSplitFields false [] (jsTrim rawLine)).length ≥ 3
        · by_cases h4 : (csvSplitFields false [] (jsTrim rawLine)).length > 3 <;>
            simp [h3, h4]
        · by_cases h5 : (csvSplitFields false [] (jsTrim rawLine)).length = 2
          · simp [h3, h5]
          · by_cases h6 : (csvSplitFields false [] (jsTrim rawLine)).length = 1 <;>
              simp [h3, h5, h6]

theorem importAux_eq_spec : ∀ (ls : List (List Char)) (i : Nat),
    importAux i ls =
      (((ls.enumFrom i).filterMap (fun p => importSpecLine p.1 p.2)).join,
        ((ls.enumFrom i).filterMap (fun p => importSpecLine p.1 p.2)).length) := by
  intro ls
  induction ls with
  | nil => intro i; rfl
  | cons l rest ih =>
    intro i
    unfold importAux
    rw [importLineOut_eq_spec]
    rw [List.enumFrom_cons]
    simp only [List.filterMap_cons]
    cases h : importSpecLine i l with
    | none =>
      simp only
      exact ih (i + 1)
    | some chunk =>
      simp only
      rw [ih (i + 1)]
      simp [List.flatten_cons]

/-- C8 counterexample: five blank lines push the header row to raw index
5, so the code no longer skips it even though it is the first data line;
the claim predicts an empty import, the code imports the header as a
segment line. -/
theorem claimC8_counterexample :
    handleImportCSV "\n\n\n\n\nTime,Speaker,Content".data =
      ("[Time] Speaker: Content\n".data, 1) ∧
    handleImportCSV "\n\n\n\n\nTime,Speaker,Content".data ≠ ([], 0) := by
  exact ⟨by decide, by decide⟩

/-- C8 (amended): the importer strips a leading BOM, normalizes line
endings, and processes each line with its raw index: blank lines and
`---` lines are skipped, a line whose first column case-insensitively
matches a time header token is skipped when its raw index (not its data
position) is below 5, the column-count policy maps the parsed fields,
and each remaining line emits `[time] speaker: content`, a bare content
line, or nothing. -/
theorem claimC8_amended_import (rawText : List Char) :
    handleImportCSV rawText = importSpec rawText := by
  unfold handleImportCSV importSpec
  rw [importAux_eq_spec]
  rfl

/-!
Round-trip through plain-text serialization (C2).
-/

/-- Values of the digit characters. -/
theorem digitChar_toNat : ∀ d < 10, (digitChar d).toNat = 48 + d := by
  decide

theorem digitsVal_append_digit (l : List Char) (c : Char) :
    digitsVal (l ++ [c]) = digitsVal l * 10 + (c.toNat - 48) := by
  unfold digitsVal
  rw [List.foldl_append]
  rfl

/-- The digit-string evaluator inverts the decimal printer. -/
theorem digitsVal_natToChars : ∀ n : Nat, digitsVal (natToChars n) = n := by
  intro n
  induction n using Nat.strong_induction_on with
  | _ n ih =>
    rw [natToChars_eq]
    by_cases hn : n < 10
    · rw [if_pos hn]
      show digitsVal [digitChar n] = n
      unfold digitsVal
      simp only [List.foldl_cons, List.foldl_nil, digitChar_toNat n hn]
      omega
    · rw [if_neg hn, digitsVal_append_digit,
        ih (n / 10) (Nat.div_lt_self (by omega) (by omega)),
        digitChar_toNat (n % 10) (Nat.mod_lt n (by omega))]
      omega

/-- Left zero-padding does not change the numeric value. -/
theorem digitsVal_padStart2 (l : List Char) :
    digitsVal (padStart2 l) = digitsVal l := by
  match l with
  | [] => decide
  | [c] =>
    show digitsVal ['0', c] = digitsVal [c]
    unfold digitsVal
    simp only [List.foldl_cons, List.foldl_nil,
      show ('0').toNat = 48 from rfl]
  | a :: b :: t => rfl

/-- Digits are not JavaScript whitespace. -/
theorem isJsWs_of_digit (c : Char) (h : c.isDigit = true) :
    isJsWs c = false := by
  cases hw : isJsWs c
  · rfl
  · exfalso
    simp only [isJsWs, Bool.or_eq_true, decide_eq_true_eq] at hw
    rcases hw with
      (((((((rfl | rfl) | rfl) | rfl) | rfl) | rfl) | rfl) | rfl) <;>
      exact absurd h (by decide)

/-- Below 100 the padded decimal print has exactly two characters. -/
theorem padTwo_len : ∀ m < 100, (padStart2 (natToChars m)).length = 2 := by
  decide

/-- `Number()` inverts the padded decimal print. -/
theorem jsNumber_pad (m : Nat) (hm : m < 100) :
    jsNumber (padStart2 (natToChars m)) = some m := by
  have hd : ∀ c ∈ padStart2 (natToChars m), c.isDigit = true :=
    padStart2_digits _ (natToChars_all_digits m)
  have hne : padStart2 (natToChars m) ≠ [] := by
    intro h0
    have := padTwo_len m hm
    rw [h0] at this
    simp at this
  unfold jsNumber
  simp only
  rw [jsTrim_of_no_ws _ (fun c hc => isJsWs_of_digit c (hd c hc))]
  rw [if_neg hne,
    if_pos (List.all_eq_true.mpr (fun c hc => hd c hc)),
    digitsVal_padStart2, digitsVal_natToChars]

theorem colon_not_mem_pad (m : Nat) : ':' ∉ padStart2 (natToChars m) := by
  intro hc
  exact absurd (padStart2_digits _ (natToChars_all_digits m) ':' hc) (by decide)

/-- Shape of the display-time formatter. -/
theorem fmt_shape (n : Nat) :
    formatSecondsToTime n =
      if n / 3600 > 0 then
        padStart2 (natToChars (n / 3600)) ++
          ':' :: (padStart2 (natToChars (n % 3600 / 60)) ++
            ':' :: padStart2 (natToChars (n % 60)))
      else
        padStart2 (natToChars (n % 3600 / 60)) ++
          ':' :: padStart2 (natToChars (n % 60)) := by
  unfold formatSecondsToTime
  simp only
  split <;> simp

/-- `parseTimeToSeconds` inverts `formatSecondsToTime` below 100 hours. -/
theorem parseTime_fmt (n : Nat) (hn : n < 360000) :
    parseTimeToSeconds (formatSecondsToTime n) = n := by
  rw [fmt_shape]
  by_cases hh : n / 3600 > 0
  · rw [if_pos hh]
    unfold parseTimeToSeconds
    rw [if_neg (by simp)]
    rw [splitOnChar_append_sep ':' _ _ (colon_not_mem_pad _),
      splitOnChar_append_sep ':' _ _ (colon_not_mem_pad _),
      splitOnChar_of_not_mem ':' _ (colon_not_mem_pad _)]
    simp only [List.map_cons, List.map_nil,
      jsNumber_pad (n / 3600) (by omega),
      jsNumber_pad (n % 3600 / 60) (by omega),
      jsNumber_pad (n % 60) (by omega)]
    simp only [List.any_cons, List.any_nil]
    simp
    omega
  · rw [if_neg hh]
    unfold parseTimeToSeconds
    rw [if_neg (by simp)]
    rw [splitOnChar_append_sep ':' _ _ (colon_not_mem_pad _),
      splitOnChar_of_not_mem ':' _ (colon_not_mem_pad _)]
    simp only [List.map_cons, List.map_nil,
      jsNumber_pad (n % 3600 / 60) (by omega),
      jsNumber_pad (n % 60) (by omega)]
    simp only [List.any_cons, List.any_nil]
    simp
    omega

/-- The optional-seconds group never fires at a stop character. -/
theorem optSecs_stop (rest : List Char)
    (hr : ∀ c, rest.head? = some c → c = ']' ∨ c = ' ') :
    optSecs rest = none := by
  cases rest with
  | nil => rfl
  | cons c r => rcases hr c rfl with rfl | rfl <;> rfl

/-- Matching the time pattern against a formatted time followed by a stop
character consumes exactly the formatted time. -/
theorem matchTimePat_fmt (n : Nat) (hn : n < 360000) (rest : List Char)
    (hr : ∀ c, rest.head? = some c → c = ']' ∨ c = ' ') :
    matchTimePat (formatSecondsToTime n ++ rest) =
      some (formatSecondsToTime n, rest) := by
  have hdigM := padStart2_digits _ (natToChars_all_digits (n % 3600 / 60))
  have hdigS := padStart2_digits _ (natToChars_all_digits (n % 60))
  obtain ⟨a, b, hab⟩ :=
    List.length_eq_two.mp (padTwo_len (n % 3600 / 60) (by omega))
  obtain ⟨c, d, hcd⟩ := List.length_eq_two.mp (padTwo_len (n % 60) (by omega))
  rw [hab] at hdigM
  rw [hcd] at hdigS
  have hA : a.isDigit = true := hdigM a (by simp)
  have hB : b.isDigit = true := hdigM b (by simp)
  have hC : c.isDigit = true := hdigS c (by simp)
  have hD : d.isDigit = true := hdigS d (by simp)
  rw [fmt_shape]
  by_cases hh : n / 3600 > 0
  · rw [if_pos hh]
    have hdigH := padStart2_digits _ (natToChars_all_digits (n / 3600))
    obtain ⟨e, f, hef⟩ :=
      List.length_eq_two.mp (padTwo_len (n / 3600) (by omega))
    rw [hef] at hdigH
    have hE : e.isDigit = true := hdigH e (by simp)
    have hF : f.isDigit = true := hdigH f (by simp)
    rw [hab, hcd, hef]
    simp only [List.cons_append, List.append_assoc, List.nil_append]
    simp [matchTimePat, leadDigits, twoDigits, optSecs, hA, hB, hC, hD, hE, hF]
  · rw [if_neg hh]
    rw [hab, hcd]
    simp only [List.cons_append, List.append_assoc, List.nil_append]
    simp [matchTimePat, leadDigits, twoDigits, hA, hB, hC, hD,
      optSecs_stop rest hr]

/-- A formatted time starts with a digit. -/
theorem fmt_head_digit (n : Nat) (hn : n < 360000) :
    ∃ c r, formatSecondsToTime n = c :: r ∧ c.isDigit = true := by
  rw [fmt_shape]
  by_cases hh : n / 3600 > 0
  · rw [if_pos hh]
    obtain ⟨e, f, hef⟩ :=
      List.length_eq_two.mp (padTwo_len (n / 3600) (by omega))
    have hdig := padStart2_digits _ (natToChars_all_digits (n / 3600))
    rw [hef] at hdig ⊢
    exact ⟨e, f :: ':' :: (padStart2 (natToChars (n % 3600 / 60)) ++
      ':' :: padStart2 (natToChars (n % 60))), by simp, hdig e (by simp)⟩
  · rw [if_neg hh]
    obtain ⟨a, b, hab⟩ :=
      List.length_eq_two.mp (padTwo_len (n % 3600 / 60) (by omega))
    have hdig := padStart2_digits _ (natToChars_all_digits (n % 3600 / 60))
    rw [hab] at hdig ⊢
    exact ⟨a, b :: ':' :: padStart2 (natToChars (n % 60)), by simp,
      hdig a (by simp)⟩

/-- The bracket regex on a rebuilt single-time line captures the
formatted time and stops at the `']'`. -/
theorem matchBracket_fmt1 (n : Nat) (hn : n < 360000) (tail : List Char) :
    matchBracket ('[' :: formatSecondsToTime n ++ ']' :: tail) =
      some (formatSecondsToTime n, none, tail) := by
  have hm := matchTimePat_fmt n hn (']' :: tail) (fun c hc => by
    simp only [List.head?_cons, Option.some_inj] at hc
    exact Or.inl hc.symm)
  unfold matchBracket
  split
  next rr heq =>
    injection heq with h1 h2
    subst h2
    rw [List.append_eq, hm]
    rfl
  next h => exact (h _ rfl).elim

/-- The bracket regex on a rebuilt time-range line captures both
formatted times. -/
theorem matchBracket_fmt2 (n k : Nat) (hn : n < 360000) (hk : k < 360000)
    (tail : List Char) :
    matchBracket ('[' :: (formatSecondsToTime n ++
        ' ' :: '-' :: ' ' :: formatSecondsToTime k) ++ ']' :: tail) =
      some (formatSecondsToTime n, some (formatSecondsToTime k), tail) := by
  have hm2 := matchTimePat_fmt k hk (']' :: tail) (fun c hc => by
    simp only [List.head?_cons, Option.some_inj] at hc
    exact Or.inl hc.symm)
  have hm1 := matchTimePat_fmt n hn
    (' ' :: '-' :: ' ' :: (formatSecondsToTime k ++ ']' :: tail))
    (fun c hc => by
      simp only [List.head?_cons, Option.some_inj] at hc
      exact Or.inr hc.symm)
  have hdrop : (formatSecondsToTime k ++ ']' :: tail).dropWhile isJsWs =
      formatSecondsToTime k ++ ']' :: tail := by
    obtain ⟨c, r, hcr, hc⟩ := fmt_head_digit k hk
    rw [hcr]
    simp only [List.cons_append, List.dropWhile_cons, isJsWs_of_digit c hc]
    simp
  have hdash : dashTime
      (' ' :: '-' :: ' ' :: (formatSecondsToTime k ++ ']' :: tail)) =
      some (formatSecondsToTime k, ']' :: tail) := by
    unfold dashTime
    simp only [List.dropWhile_cons, show isJsWs ' ' = true from rfl,
      show isJsWs '-' = false from rfl, if_true, Bool.false_eq_true, if_false]
    rw [hdrop, hm2]
  have hshape : '[' :: (formatSecondsToTime n ++
      ' ' :: '-' :: ' ' :: formatSecondsToTime k) ++ ']' :: tail =
      '[' :: (formatSecondsToTime n ++
        ' ' :: '-' :: ' ' :: (formatSecondsToTime k ++ ']' :: tail)) := by
    simp
  rw [hshape]
  unfold matchBracket
  split
  next rr heq =>
    injection heq with h1 h2
    subst h2
    rw [hm1]
    simp only [hdash]
  next h => exact (h _ rfl).elim

/-- The speaker continuation fails on an ordinary character. -/
theorem afterSpkCore_none (c : Char) (r : List Char)
    (h1 : c ≠ '*') (h2 : c ≠ ':') : afterSpkCore (c :: r) = none := by
  unfold afterSpkCore
  split
  next heq =>
    injection heq with ha _
    exact absurd ha h1
  next heq =>
    injection heq with ha _
    exact absurd ha h2
  next => rfl

/-- The lazy TV speaker core stops exactly at the first `':'` when fed a
star- and colon-free label followed by `':'`. -/
theorem spkCoreTV_exact : ∀ (spk acc rest : List Char), spk ≠ [] →
    (∀ c ∈ spk, c ≠ '*' ∧ c ≠ ':') →
    spkCoreTV acc (spk ++ ':' :: rest) = some (acc ++ spk, rest) := by
  intro spk
  induction spk with
  | nil => intro acc rest h _; exact absurd rfl h
  | cons c spk' ih =>
    intro acc rest _ hch
    have hc := hch c (by simp)
    cases spk' with
    | nil =>
      simp only [List.cons_append, List.nil_append]
      unfold spkCoreTV
      rw [if_neg (by simp [hc.1, hc.2])]
      have haft : afterSpkCore (':' :: rest) = some rest := rfl
      rw [haft]
    | cons c2 spk'' =>
      have hc2 := hch c2 (by simp)
      simp only [List.cons_append]
      unfold spkCoreTV
      rw [if_neg (by simp [hc.1, hc.2])]
      rw [afterSpkCore_none c2 _ hc2.1 hc2.2]
      have hrest := ih (acc ++ [c]) rest (by simp)
        (fun x hx => hch x (by simp [hx]))
      simp only [List.cons_append] at hrest
      simp [hrest]

/-- The TV speaker group captures exactly a star- and colon-free label
followed by `':'`. -/
theorem matchSpeakerTV_exact (spk rest : List Char) (hne : spk ≠ [])
    (hch : ∀ c ∈ spk, c ≠ '*' ∧ c ≠ ':') :
    matchSpeakerTV (spk ++ ':' :: rest) = some (spk, rest) := by
  have hcore := spkCoreTV_exact spk [] rest hne hch
  cases spk with
  | nil => exact absurd rfl hne
  | cons c spk' =>
    have hc := hch c (by simp)
    unfold matchSpeakerTV
    split
    next rest' heq =>
      rw [List.cons_append] at heq
      injection heq with ha _
      exact absurd ha hc.1
    next hnb =>
      simpa using hcore

/-- The head surviving `dropWhile` refutes the predicate. -/
theorem head_dropWhile_not (p : Char → Bool) :
    ∀ (l : List Char) (c : Char),
      (l.dropWhile p).head? = some c → p c = false := by
  intro l
  induction l with
  | nil => intro c h; simp at h
  | cons a t ih =>
    intro c h
    rw [List.dropWhile_cons] at h
    by_cases ha : p a = true
    · rw [if_pos ha] at h
      exact ih c h
    · rw [if_neg ha] at h
      simp only [List.head?_cons, Option.some_inj] at h
      subst h
      simpa using ha

/-- `dropWhile` is the identity when the head already refutes the
predicate. -/
theorem dropWhile_of_head_not (p : Char → Bool) (l : List Char)
    (h : ∀ c, l.head? = some c → p c = false) : l.dropWhile p = l := by
  cases l with
  | nil => rfl
  | cons a t =>
    rw [List.dropWhile_cons, if_neg (by simp [h a rfl])]

/-- Reparsing the rebuilt tail `' ' :: speaker: content` recovers the
speaker and the content, provided the label is star- and colon-free with
a non-whitespace head, the content has a non-whitespace head, and, when
the label is empty, the content does not itself look like a labelled
line. -/
theorem segTailTV_stable (spk content : List Char)
    (hch : ∀ c ∈ spk, c ≠ '*' ∧ c ≠ ':')
    (hhead : ∀ c, spk.head? = some c → isJsWs c = false)
    (hcon : ∀ c, content.head? = some c → isJsWs c = false)
    (hnone : spk = [] → matchSpeakerTV content = none) :
    segTailTV (' ' :: (spkPre spk ++ content)) = ⟨spk, content⟩ := by
  by_cases hs : spk = []
  · subst hs
    show segTailTV (' ' :: content) = ⟨[], content⟩
    unfold segTailTV
    rw [List.dropWhile_cons, if_pos (by decide)]
    rw [dropWhile_of_head_not isJsWs content hcon]
    simp only [hnone rfl]
  · obtain ⟨c0, spk0, rfl⟩ := List.exists_cons_of_ne_nil hs
    have hc0ws : isJsWs c0 = false := hhead c0 rfl
    have hshape : spkPre (c0 :: spk0) ++ content =
        c0 :: (spk0 ++ ':' :: ' ' :: content) := by
      unfold spkPre
      rw [if_neg hs]
      simp
    rw [hshape]
    unfold segTailTV
    rw [List.dropWhile_cons, if_pos (by decide)]
    rw [List.dropWhile_cons, if_neg (by simp [hc0ws])]
    have hms := matchSpeakerTV_exact (c0 :: spk0) (' ' :: content) hs hch
    simp only [List.cons_append] at hms
    simp only [hms]
    rw [List.dropWhile_cons, if_pos (by decide)]
    rw [dropWhile_of_head_not isJsWs content hcon]

/-- Properties of the TV tail decomposition needed for reparsing: the
speaker is star- and colon-free, the content starts with non-whitespace,
and an empty speaker means the content does not itself reparse as a
labelled tail. -/
theorem segTailTV_props (r : List Char) :
    (∀ c ∈ (segTailTV r).speaker, c ≠ '*' ∧ c ≠ ':') ∧
    (∀ c, (segTailTV r).content.head? = some c → isJsWs c = false) ∧
    ((segTailTV r).speaker = [] →
      matchSpeakerTV ((segTailTV r).content) = none) := by
  unfold segTailTV
  cases hm : matchSpeakerTV (r.dropWhile isJsWs) with
  | none =>
    simp only [hm]
    exact ⟨by simp, fun c hc => head_dropWhile_not isJsWs r c hc,
      fun _ => trivial⟩
  | some v =>
    obtain ⟨spk, rest⟩ := v
    obtain ⟨x, y, _, _, hne, hch, _⟩ := matchSpeakerTV_split _ spk rest hm
    simp only [hm]
    exact ⟨hch, fun c hc => head_dropWhile_not isJsWs rest c hc,
      fun h0 => absurd h0 hne⟩

/-- A line whose trimmed form starts with `'['` is not a separator. -/
theorem sepCond_bracket (l l' : List Char) (hj : jsTrim l = '[' :: l') :
    sepCond l = false := by
  unfold sepCond
  rw [hj]
  rfl

/-- Trimming a line with a non-whitespace head keeps the head. -/
theorem jsTrim_cons_of_not_ws (c : Char) (l : List Char)
    (hc : isJsWs c = false) : ∃ l', jsTrim (c :: l) = c :: l' := by
  unfold jsTrim
  rw [List.dropWhile_cons, if_neg (by simp [hc])]
  rw [List.reverse_cons, List.dropWhile_append]
  by_cases he : (List.dropWhile isJsWs l.reverse).isEmpty = true
  · rw [if_pos he]
    exact ⟨[], by simp [List.dropWhile_cons, hc]⟩
  · rw [if_neg he]
    exact ⟨(List.dropWhile isJsWs l.reverse).reverse, by simp⟩

/-- The per-line side conditions of the amended round-trip claim: a
separator's parsable `Start:` declaration declares zero (the running
offset never moves), a segment's start and end times format below 100
hours, and a segment's speaker label does not begin with whitespace (a
label like `**␣x**:` survives parsing but not serialization). -/
def lineRT (line : List Char) : Bool :=
  if sepCond line then
    match findStartMarker (jsTrim line) with
    | some t => parseTimeToSeconds t == 0
    | none => true
  else
    match matchBracket line with
    | some (t1, t2q, r) =>
      decide (parseTimeToSeconds t1 < 360000) &&
      (match t2q with
       | some t2 => decide (parseTimeToSeconds t2 < 360000)
       | none => true) &&
      (match (segTailTV r).speaker.head? with
       | some c => ! isJsWs c
       | none => true)
    | none => true

/-- A line satisfying the round-trip conditions keeps the offset at 0. -/
theorem lineRT_off0 (tailF : List Char → SegTail)
    (smap : List Char → List Char) (idx : Nat) (line : List Char)
    (h : lineRT line = true) :
    (parseLineWith tailF smap 0 idx line).2 = 0 := by
  rw [parseLineWith_snd]
  unfold offsetStep
  by_cases hs : sepCond line = true
  · rw [if_pos hs]
    unfold lineRT at h
    rw [if_pos hs] at h
    cases hf : findStartMarker (jsTrim line) with
    | none => simp only [hf]
    | some t =>
      rw [hf] at h
      simp only [hf]
      simpa using h
  · rw [if_neg hs]

/-- The canonical line of every row of the TV parser with the identity
speaker map is newline-free when the source line is. -/
theorem parseLineTV_rawLine_nl (off idx : Nat) (l : List Char)
    (hl : '\n' ∉ l) :
    '\n' ∉ (parseLineWith segTailTV (fun s => s) off idx l).1.rawLine := by
  by_cases hs : sepCond l = true
  · rw [parseLineWith_sep _ _ _ _ _ hs]
    exact hl
  · have hs' : sepCond l = false := by simpa using hs
    by_cases h2 : jsTrim l = []
    · rw [parseLineWith_blank _ _ _ _ _ h2]
      exact hl
    · cases h3 : matchBracket l with
      | none =>
        rw [parseLineWith_rawline _ _ _ _ _ hs' h2 h3]
        exact hl
      | some v =>
        obtain ⟨t1, t2q, r⟩ := v
        rw [parseLineWith_seg _ _ _ _ _ hs' h2 t1 t2q r h3]
        simp only
        obtain ⟨mid, hline, _⟩ := matchBracket_split l t1 r t2q h3
        have hr : '\n' ∉ r := fun hc => hl (by rw [hline]; simp [hc])
        have htl := segTailTV_chars r '\n'
        have htime : '\n' ∉ timeDisplay off t1 t2q := by
          unfold timeDisplay
          cases t2q with
          | none =>
            intro hc2
            have := (fmt_chars_plain _ '\n' hc2).1
            simp [isJsWs] at this
          | some t2 =>
            intro hc2
            simp only [List.mem_append, List.mem_cons] at hc2
            rcases hc2 with hc2 | hc2 | hc2 | hc2 | hc2
            · have := (fmt_chars_plain _ '\n' hc2).1
              simp [isJsWs] at this
            · exact absurd hc2 (by decide)
            · exact absurd hc2 (by decide)
            · exact absurd hc2 (by decide)
            · have := (fmt_chars_plain _ '\n' hc2).1
              simp [isJsWs] at this
        unfold rebuildLine
        intro hc
        have hc' : '\n' = '[' ∨ '\n' ∈ timeDisplay off t1 t2q ∨ '\n' = ']' ∨
            '\n' = ' ' ∨
            '\n' ∈ spkPre (segTailTV r).speaker ∨
            '\n' ∈ (segTailTV r).content := by
          simpa [List.mem_append, List.mem_cons, or_assoc] using hc
        rcases hc' with hc | hc | hc | hc | hc | hc
        · exact absurd hc (by decide)
        · exact htime hc
        · exact absurd hc (by decide)
        · exact absurd hc (by decide)
        · unfold spkPre at hc
          split at hc
          · simp at hc
          · rcases List.mem_append.mp hc with hc | hc
            · exact hr (htl.1 hc)
            · simp only [List.mem_cons, List.not_mem_nil, or_false] at hc
              rcases hc with hc | hc <;> exact absurd hc (by decide)
        · exact hr (htl.2 hc)

/-- Reparsing the canonical line of a row produced at offset zero
reproduces the row, for lines meeting the round-trip conditions. -/
theorem parseLine_stable (idx : Nat) (line : List Char)
    (h : lineRT line = true) :
    parseLineWith segTailTV (fun s => s) 0 idx
      ((parseLineWith segTailTV (fun s => s) 0 idx line).1.rawLine) =
      parseLineWith segTailTV (fun s => s) 0 idx line := by
  by_cases hs : sepCond line = true
  · have hraw : (parseLineWith segTailTV (fun s => s) 0 idx line).1.rawLine
        = line := by
      rw [parseLineWith_sep _ _ _ _ _ hs]
    rw [hraw]
  · have hs' : sepCond line = false := by simpa using hs
    by_cases h2 : jsTrim line = []
    · have hraw : (parseLineWith segTailTV (fun s => s) 0 idx line).1.rawLine
          = line := by
        rw [parseLineWith_blank _ _ _ _ _ h2]
      rw [hraw]
    · cases h3 : matchBracket line with
      | none =>
        have hraw : (parseLineWith segTailTV (fun s => s) 0 idx line).1.rawLine
            = line := by
          rw [parseLineWith_rawline _ _ _ _ _ hs' h2 h3]
        rw [hraw]
      | some v =>
        obtain ⟨t1, t2q, r⟩ := v
        unfold lineRT at h
        rw [if_neg (by simp [hs']), h3] at h
        simp only [Bool.and_eq_true, decide_eq_true_eq] at h
        obtain ⟨⟨h1, h2q⟩, hhd⟩ := h
        obtain ⟨hch, hcon, hnone⟩ := segTailTV_props r
        have hhead : ∀ c, (segTailTV r).speaker.head? = some c →
            isJsWs c = false := by
          intro c hc
          rw [hc] at hhd
          simpa using hhd
        have hstab := segTailTV_stable (segTailTV r).speaker
          (segTailTV r).content hch hhead hcon hnone
        rw [parseLineWith_seg _ _ _ _ _ hs' h2 t1 t2q r h3]
        simp only
        cases t2q with
        | none =>
          have hn1 : parseTimeToSeconds t1 + 0 < 360000 := by omega
          have ht : timeDisplay 0 t1 none =
              formatSecondsToTime (parseTimeToSeconds t1 + 0) := rfl
          have hL : rebuildLine (timeDisplay 0 t1 none)
              ((segTailTV r).speaker) ((segTailTV r).content) =
              '[' :: (formatSecondsToTime (parseTimeToSeconds t1 + 0) ++
                ']' :: ' ' :: (spkPre (segTailTV r).speaker ++
                  (segTailTV r).content)) := by
            rw [ht]
            simp [rebuildLine]
          rw [hL]
          have hmb := matchBracket_fmt1 (parseTimeToSeconds t1 + 0) hn1
            (' ' :: (spkPre (segTailTV r).speaker ++ (segTailTV r).content))
          simp only [List.cons_append] at hmb
          obtain ⟨l', hj⟩ := jsTrim_cons_of_not_ws '['
            (formatSecondsToTime (parseTimeToSeconds t1 + 0) ++
              ']' :: ' ' :: (spkPre (segTailTV r).speaker ++
                (segTailTV r).content)) (by decide)
          have hne2 : jsTrim ('[' ::
              (formatSecondsToTime (parseTimeToSeconds t1 + 0) ++
                ']' :: ' ' :: (spkPre (segTailTV r).speaker ++
                  (segTailTV r).content))) ≠ [] := by
            rw [hj]
            simp
          rw [parseLineWith_seg _ _ _ _ _ (sepCond_bracket _ l' hj) hne2
            _ none _ hmb]
          rw [hstab]
          have hfix : timeDisplay 0
              (formatSecondsToTime (parseTimeToSeconds t1 + 0)) none =
              timeDisplay 0 t1 none := by
            rw [ht]
            show formatSecondsToTime (parseTimeToSeconds
              (formatSecondsToTime (parseTimeToSeconds t1 + 0)) + 0) = _
            rw [parseTime_fmt _ hn1]
          rw [hfix]
          simp [hL]
        | some t2 =>
          have h1b : parseTimeToSeconds t2 < 360000 := by simpa using h2q
          have hn1 : parseTimeToSeconds t1 + 0 < 360000 := by omega
          have hn2 : parseTimeToSeconds t2 + 0 < 360000 := by omega
          have ht : timeDisplay 0 t1 (some t2) =
              formatSecondsToTime (parseTimeToSeconds t1 + 0) ++
                ' ' :: '-' :: ' ' ::
                  formatSecondsToTime (parseTimeToSeconds t2 + 0) := rfl
          have hL : rebuildLine (timeDisplay 0 t1 (some t2))
              ((segTailTV r).speaker) ((segTailTV r).content) =
              '[' :: (formatSecondsToTime (parseTimeToSeconds t1 + 0) ++
                ' ' :: '-' :: ' ' ::
                  (formatSecondsToTime (parseTimeToSeconds t2 + 0) ++
                    ']' :: ' ' :: (spkPre (segTailTV r).speaker ++
                      (segTailTV r).content))) := by
            rw [ht]
            simp [rebuildLine]
          rw [hL]
          have hmb := matchBracket_fmt2 (parseTimeToSeconds t1 + 0)
            (parseTimeToSeconds t2 + 0) hn1 hn2
            (' ' :: (spkPre (segTailTV r).speaker ++ (segTailTV r).content))
          simp only [List.cons_append, List.append_assoc] at hmb
          obtain ⟨l', hj⟩ := jsTrim_cons_of_not_ws '['
            (formatSecondsToTime (parseTimeToSeconds t1 + 0) ++
              ' ' :: '-' :: ' ' ::
                (formatSecondsToTime (parseTimeToSeconds t2 + 0) ++
                  ']' :: ' ' :: (spkPre (segTailTV r).speaker ++
                    (segTailTV r).content))) (by decide)
          have hne2 : jsTrim ('[' ::
              (formatSecondsToTime (parseTimeToSeconds t1 + 0) ++
                ' ' :: '-' :: ' ' ::
                  (formatSecondsToTime (parseTimeToSeconds t2 + 0) ++
                    ']' :: ' ' :: (spkPre (segTailTV r).speaker ++
                      (segTailTV r).content)))) ≠ [] := by
            rw [hj]
            simp
          rw [parseLineWith_seg _ _ _ _ _ (sepCond_bracket _ l' hj) hne2
            _ (some (formatSecondsToTime (parseTimeToSeconds t2 + 0))) _ hmb]
          rw [hstab]
          have hfix : timeDisplay 0
              (formatSecondsToTime (parseTimeToSeconds t1 + 0))
              (some (formatSecondsToTime (parseTimeToSeconds t2 + 0))) =
              timeDisplay 0 t1 (some t2) := by
            rw [ht]
            show formatSecondsToTime (parseTimeToSeconds
                (formatSecondsToTime (parseTimeToSeconds t1 + 0)) + 0) ++
                ' ' :: '-' :: ' ' :: formatSecondsToTime (parseTimeToSeconds
                  (formatSecondsToTime (parseTimeToSeconds t2 + 0)) + 0) = _
            rw [parseTime_fmt _ hn1, parseTime_fmt _ hn2]
          rw [hfix]
          simp [hL]

theorem parseRowsAux_cons (tailF : List Char → SegTail)
    (smap : List Char → List Char) (off idx : Nat) (l : List Char)
    (ls : List (List Char)) :
    parseRowsAux tailF smap off idx (l :: ls) =
      (parseLineWith tailF smap off idx l).1 ::
        parseRowsAux tailF smap (parseLineWith tailF smap off idx l).2
          (idx + 1) ls := rfl

/-- Reparsing the canonical lines of the rows reproduces the rows, for
line lists meeting the round-trip conditions. -/
theorem parseRows_rt (lines : List (List Char)) :
    ∀ idx, (∀ l ∈ lines, lineRT l = true) →
    parseRowsAux segTailTV (fun s => s) 0 idx
        ((parseRowsAux segTailTV (fun s => s) 0 idx lines).map (·.rawLine)) =
      parseRowsAux segTailTV (fun s => s) 0 idx lines := by
  induction lines with
  | nil => intro idx _; rfl
  | cons l ls ih =>
    intro idx hok
    have hl := hok l (by simp)
    have hoff := lineRT_off0 segTailTV (fun s => s) idx l hl
    have hstab := parseLine_stable idx l hl
    rw [parseRowsAux_cons segTailTV (fun s => s) 0 idx l ls, hoff,
      List.map_cons,
      parseRowsAux_cons segTailTV (fun s => s) 0 idx _ _, hstab, hoff]
    rw [ih (idx + 1) (fun x hx => hok x (by simp [hx]))]

/-- C2 counterexample: serializing bakes the offset-corrected display
times into the canonical lines while the separator line keeps its
`Start:` declaration, so reparsing applies the offset again: the segment
of the two-line example displays `01:35` after one parse but `03:05`
after a serialize-and-reparse round trip. -/
theorem claimC2_counterexample :
    ((rowsTV [] (getProcessedText (rowsTV []
      "--- [f | Start: 01:30] ---\n[00:05] Alice: Hello".data))).get? 1).map
        (·.time) = some "03:05".data ∧
    ((rowsTV []
      "--- [f | Start: 01:30] ---\n[00:05] Alice: Hello".data).get? 1).map
        (·.time) = some "01:35".data ∧
    rowsTV [] (getProcessedText (rowsTV []
      "--- [f | Start: 01:30] ---\n[00:05] Alice: Hello".data)) ≠
      rowsTV [] "--- [f | Start: 01:30] ---\n[00:05] Alice: Hello".data := by
  exact ⟨by decide, by decide, by decide⟩

/-- C2 (amended): with an empty speaker map, parsing through plain-text
serialization is idempotent for inputs whose lines satisfy the
round-trip conditions of `lineRT`: every separator's parsable `Start:`
declaration declares 0 (a non-zero offset is re-applied on reparse and
breaks the round trip), every segment's display times format below 100
hours (beyond that the rebuilt time no longer matches the segment
regex), and no segment speaker label begins with whitespace. -/
theorem claimC2_amended_roundtrip (text : List Char)
    (h : ∀ line ∈ splitLines text, lineRT line = true) :
    rowsTV [] (getProcessedText (rowsTV [] text)) = rowsTV [] text := by
  have hmap : applySpeakerMap [] = (fun s => s) := funext (fun s => rfl)
  unfold rowsTV getProcessedText
  rw [hmap]
  have hne : (parseRowsAux segTailTV (fun s => s) 0 0
      (splitLines text)).map (·.rawLine) ≠ [] := by
    intro h0
    have := congrArg List.length h0
    simp only [List.length_map, List.length_nil,
      parseRowsAux_length] at this
    exact splitOnChar_ne_nil '\n' text (List.length_eq_zero.mp this)
  have hnl : ∀ rl ∈ (parseRowsAux segTailTV (fun s => s) 0 0
      (splitLines text)).map (·.rawLine), '\n' ∉ rl := by
    intro rl hrl
    obtain ⟨row, hrow, rfl⟩ := List.mem_map.mp hrl
    obtain ⟨n, hn⟩ := List.mem_iff_get?.mp hrow
    rw [parseRowsAux_get?] at hn
    cases hl : (splitLines text).get? n with
    | none => rw [hl] at hn; simp at hn
    | some l =>
      rw [hl] at hn
      simp only [Option.map_some', Option.some_inj] at hn
      rw [← hn]
      exact parseLineTV_rawLine_nl _ _ l
        (splitLines_no_nl text l (List.get?_mem hl))
  rw [splitLines_joinNl _ hne hnl]
  exact parseRows_rt (splitLines text) 0 h

/-- Witness for the amended C2 on a concrete four-line text with a
zero-offset separator, a time-range segment, a blank line and a plain
line. -/
theorem claimC2_amended_roundtrip_witness :
    (∀ line ∈ splitLines
      "--- [f.mp3 | Start: 00:00] ---\n[00:05 - 00:10] Alice: Hello\n\nplain".data,
      lineRT line = true) ∧
    rowsTV [] (getProcessedText (rowsTV []
      "--- [f.mp3 | Start: 00:00] ---\n[00:05 - 00:10] Alice: Hello\n\nplain".data)) =
      rowsTV []
        "--- [f.mp3 | Start: 00:00] ---\n[00:05 - 00:10] Alice: Hello\n\nplain".data :=
  ⟨by decide, claimC2_amended_roundtrip _ (by decide)⟩

/-- C1: the parser threads a single running offset through the lines in
order, starting from 0; a separator line carrying a parsable `Start:`
marker replaces the offset with the parsed value regardless of the
previous offset; the display time of every segment row is its local
start (and end) time in seconds plus the offset in force at that line;
and on the two-line example of the specification the corrected display
time of the segment row is `01:35`. -/
theorem claimC1_offset_threading (text : List Char) (i : Nat) :
    ((rowsTV [] text).get? i =
      ((splitLines text).get? i).map
        (fun l => (parseLineWith segTailTV (applySpeakerMap [])
          (offsetInForce (splitLines text) i) i l).1)) ∧
    (∀ (off : Nat) (l t : List Char), sepCond l = true →
      findStartMarker (jsTrim l) = some t →
      offsetStep off l = parseTimeToSeconds t) ∧
    (∀ (l t1 r : List Char) (t2q : Option (List Char)) (row : RowData),
      (splitLines text).get? i = some l → sepCond l = false → jsTrim l ≠ [] →
      matchBracket l = some (t1, t2q, r) →
      (rowsTV [] text).get? i = some row →
      row.time = formatSecondsToTime (parseTimeToSeconds t1 +
          offsetInForce (splitLines text) i) ++
        (match t2q with
         | none => []
         | some t2 => ' ' :: '-' :: ' ' :: formatSecondsToTime
             (parseTimeToSeconds t2 + offsetInForce (splitLines text) i))) ∧
    ((rowsTV []
        "--- [接續檔案: f.mp3 | Start: 01:30] ---\n[00:05] Alice: Hello".data).get?
        1).map RowData.time = some "01:35".data := by
  have hmain : (rowsTV [] text).get? i =
      ((splitLines text).get? i).map
        (fun l => (parseLineWith segTailTV (applySpeakerMap [])
          (offsetInForce (splitLines text) i) i l).1) := by
    unfold rowsTV
    rw [parseRowsAux_get?]
    simp [offsetInForce]
  refine ⟨hmain, ?_, ?_, ?_⟩
  · intro off l t hsep hfind
    simp [offsetStep, hsep, hfind]
  · intro l t1 r t2q row hl hsep hne hbr hrow
    rw [hmain, hl] at hrow
    simp only [Option.map_some'] at hrow
    rw [parseLineWith_seg _ _ _ _ _ hsep hne t1 t2q r hbr] at hrow
    simp only [Option.some_inj] at hrow
    rw [← hrow]
    simp only [timeDisplay]
    cases t2q with
    | none => simp
    | some t2 => simp
  · decide

/-- Witness for C1 at a concrete input: the conditional conjuncts of the
theorem instantiated on the two-line example of the specification. -/
theorem claimC1_offset_threading_witness :
    offsetStep 7
        "--- [接續檔案: f.mp3 | Start: 01:30] ---".data = 90 ∧
    (rowsTV []
        "--- [接續檔案: f.mp3 | Start: 01:30] ---\n[00:05] Alice: Hello".data).get?
        1 = some
      { id := 1, type := .segment, time := "01:35".data,
        speaker := "Alice".data, content := "Hello".data,
        rawLine := "[01:35] Alice: Hello".data } := by
  constructor
  · exact (claimC1_offset_threading [] 0).2.1 7
      "--- [接續檔案: f.mp3 | Start: 01:30] ---".data "01:30".data
      (by decide) (by decide)
  · have h := (claimC1_offset_threading
      "--- [接續檔案: f.mp3 | Start: 01:30] ---\n[00:05] Alice: Hello".data 1).1
    rw [h]
    decide

/-- C3: both parsers return exactly one row per newline-split input line,
in input order; each row's id is its line index; empty input lines become
raw rows with empty content.  (The parser is a plain function of the text
and the speaker map, so purity is intrinsic to the embedding.) -/
theorem claimC3_row_alignment (speakers : List Speaker) (text : List Char) :
    (rowsTV speakers text).length = (splitLines text).length ∧
    (∀ (i : Nat) (row : RowData),
      (rowsTV speakers text).get? i = some row → row.id = i) ∧
    (∀ (i : Nat), (splitLines text).get? i = some [] →
      (rowsTV speakers text).get? i =
        some { id := i, type := .raw, time := [], speaker := [],
               content := [], rawLine := [] }) := by
  refine ⟨parseRowsAux_length _ _ _ _ _, ?_, ?_⟩
  · intro i row hrow
    unfold rowsTV at hrow
    rw [parseRowsAux_get?] at hrow
    cases hl : (splitLines text).get? i with
    | none => rw [hl] at hrow; simp at hrow
    | some l =>
      rw [hl] at hrow
      simp only [Option.map_some', Option.some_inj] at hrow
      rw [← hrow, parseLineWith_fst_id]
      omega
  · intro i hl
    unfold rowsTV
    rw [parseRowsAux_get?, hl]
    simp only [Option.map_some']
    rw [parseLineWith_blank _ _ _ _ _ (by decide)]
    simp

/-- Witness for C3 at a concrete input: a three-line text with an empty
middle line. -/
theorem claimC3_row_alignment_witness :
    (rowsTV [] "[00:05] A: hi\n\nplain".data).length = 3 ∧
    (∀ (row : RowData),
      (rowsTV [] "[00:05] A: hi\n\nplain".data).get? 2 = some row →
        row.id = 2) ∧
    (rowsTV [] "[00:05] A: hi\n\nplain".data).get? 1 =
      some { id := 1, type := .raw, time := [], speaker := [], content := [],
             rawLine := [] } := by
  refine ⟨?_, ?_, ?_⟩
  · rw [(claimC3_row_alignment [] "[00:05] A: hi\n\nplain".data).1]
    decide
  · exact fun row h =>
      (claimC3_row_alignment [] "[00:05] A: hi\n\nplain".data).2.1 2 row h
  · exact (claimC3_row_alignment [] "[00:05] A: hi\n\nplain".data).2.2 1
      (by decide)

/-- C10 counterexample: on a bold-marked speaker label the two parsers
disagree — the TV variant strips the `**` markers from the speaker while
the P2 variant keeps them — so the two row sequences are not equal
row by row. -/
theorem claimC10_counterexample :
    ((rowsTV [] "[00:05] **Alice**: Hi".data).map RowData.speaker) ≠
      ((rowsP2 "[00:05] **Alice**: Hi".data).map RowData.speaker) := by
  decide

/-- C10 (amended): for every input text the two parsers produce equally
many rows, and row by row they agree in id, kind and display time; the
speaker, content and canonical raw line may differ (the speaker grammar
is the delta between the two components). -/
theorem claimC10_amended_agreement (text : List Char) :
    (rowsP2 text).length = (rowsTV [] text).length ∧
    ∀ (i : Nat) (rT rP : RowData), (rowsTV [] text).get? i = some rT →
      (rowsP2 text).get? i = some rP →
      rT.id = rP.id ∧ rT.type = rP.type ∧ rT.time = rP.time := by
  constructor
  · unfold rowsTV rowsP2
    rw [parseRowsAux_length, parseRowsAux_length]
  · intro i rT rP hT hP
    unfold rowsTV at hT
    unfold rowsP2 at hP
    rw [parseRowsAux_get?] at hT hP
    cases hl : (splitLines text).get? i with
    | none => rw [hl] at hT; simp at hT
    | some l =>
      rw [hl] at hT hP
      simp only [Option.map_some', Option.some_inj] at hT hP
      rw [← hT, ← hP]
      exact parseLineWith_proj_agree _ _ _ _ _ _ _

/-- C9: on a segment line, if the parsed speaker label case-insensitively
equals the id of some entry of the speaker map, the row's speaker is the
name of the (first) matching entry; the canonical raw line is rebuilt as
`[time] speaker: content` with the `speaker: ` piece omitted exactly when
the resolved speaker is empty; a line with no speaker yields the empty
speaker (never `Unknown`) as long as no map entry has an empty id; and
the concrete example of the specification resolves `Speaker 1` to
`Peter`. -/
theorem claimC9_speaker_resolution (speakers : List Speaker) (off idx : Nat)
    (line t1 r : List Char) (t2q : Option (List Char))
    (hsep : sepCond line = false) (hne : jsTrim line ≠ [])
    (hbr : matchBracket line = some (t1, t2q, r)) :
    ((∃ e ∈ speakers, lowerEq e.id (segTailTV r).speaker = true) →
      ∃ e2, speakers.find? (fun s => lowerEq s.id (segTailTV r).speaker) =
          some e2 ∧
        lowerEq e2.id (segTailTV r).speaker = true ∧
        (parseLineWith segTailTV (applySpeakerMap speakers)
          off idx line).1.speaker = e2.name) ∧
    ((parseLineWith segTailTV (applySpeakerMap speakers)
        off idx line).1.rawLine =
      '[' :: (parseLineWith segTailTV (applySpeakerMap speakers)
          off idx line).1.time ++ ']' :: ' ' ::
        (if (parseLineWith segTailTV (applySpeakerMap speakers)
            off idx line).1.speaker = [] then
          (parseLineWith segTailTV (applySpeakerMap speakers)
            off idx line).1.content
        else (parseLineWith segTailTV (applySpeakerMap speakers)
            off idx line).1.speaker ++ ':' :: ' ' ::
          (parseLineWith segTailTV (applySpeakerMap speakers)
            off idx line).1.content)) ∧
    ((segTailTV r).speaker = [] → (∀ e ∈ speakers, e.id ≠ []) →
      (parseLineWith segTailTV (applySpeakerMap speakers)
        off idx line).1.speaker = []) ∧
    (rowsTV [⟨"Speaker 1".data, "Peter".data⟩]
        "[00:00 - 00:05] Speaker 1: Hi".data).map RowData.speaker =
      ["Peter".data] := by
  have hrow := parseLineWith_seg segTailTV (applySpeakerMap speakers)
    off idx line hsep hne t1 t2q r hbr
  refine ⟨?_, ?_, ?_, by decide⟩
  · rintro ⟨e, hmem, hlow⟩
    have hsome :
        (speakers.find? (fun s => lowerEq s.id (segTailTV r).speaker)).isSome := by
      rw [List.find?_isSome]
      exact ⟨e, hmem, hlow⟩
    obtain ⟨e2, he2⟩ := Option.isSome_iff_exists.mp hsome
    refine ⟨e2, he2, by simpa using List.find?_some he2, ?_⟩
    rw [hrow]
    simp only [applySpeakerMap]
    have hnonempty : speakers.isEmpty = false := by
      cases speakers with
      | nil => simp at hmem
      | cons a as => rfl
    rw [if_neg (by simp [hnonempty]), he2]
  · rw [hrow]
    simp only [rebuildLine, spkPre]
    by_cases hz : applySpeakerMap speakers (segTailTV r).speaker = []
    · simp [hz]
    · simp [hz]
  · intro hnil hids
    rw [hrow]
    simp only [applySpeakerMap, hnil]
    have hfind : speakers.find? (fun s => lowerEq s.id []) = none := by
      rw [List.find?_eq_none]
      intro e hmem
      have hidne := hids e hmem
      simp only [lowerEq]
      cases hid : e.id with
      | nil => exact absurd hid hidne
      | cons a as => simp
    rw [hfind]
    split <;> rfl

/-- Witness for C9: the map resolution and empty-speaker conjuncts
instantiated on concrete lines. -/
theorem claimC9_speaker_resolution_witness :
    (∃ e2, ([⟨"Speaker 1".data, "Peter".data⟩] : List Speaker).find?
        (fun s => lowerEq s.id
          (segTailTV " Speaker 1: Hi".data).speaker) = some e2 ∧
      lowerEq e2.id (segTailTV " Speaker 1: Hi".data).speaker = true ∧
      (parseLineWith segTailTV
        (applySpeakerMap [⟨"Speaker 1".data, "Peter".data⟩]) 0 0
        "[00:00 - 00:05] Speaker 1: Hi".data).1.speaker = e2.name) ∧
    (parseLineWith segTailTV (applySpeakerMap [⟨"Speaker 1".data, "Peter".data⟩])
        0 0 "[00:00 - 00:05] Hi".data).1.speaker = [] := by
  constructor
  · exact (claimC9_speaker_resolution [⟨"Speaker 1".data, "Peter".data⟩] 0 0
      "[00:00 - 00:05] Speaker 1: Hi".data "00:00".data " Speaker 1: Hi".data
      (some "00:05".data) (by decide) (by decide) (by decide)).1
      ⟨⟨"Speaker 1".data, "Peter".data⟩, by decide, by decide⟩
  · exact (claimC9_speaker_resolution [⟨"Speaker 1".data, "Peter".data⟩] 0 0
      "[00:00 - 00:05] Hi".data "00:00".data " Hi".data
      (some "00:05".data) (by decide) (by decide) (by decide)).2.2.1
      (by decide) (by decide)

/-- The speaker and content of a segment row of the TV parser draw their
characters from the parsed line and the speaker-map names. -/
theorem rowsTV_segment_chars (speakers : List Speaker) (off idx : Nat)
    (l : List Char) (c : Char)
    (hl : c ∉ l) (hnames : ∀ e ∈ speakers, c ∉ e.name) :
    c ∉ (parseLineWith segTailTV (applySpeakerMap speakers) off idx l).1.speaker ∧
    c ∉ (parseLineWith segTailTV (applySpeakerMap speakers) off idx l).1.content := by
  by_cases hs : sepCond l = true
  · rw [parseLineWith_sep _ _ _ _ _ hs]
    constructor
    · simp
    · intro hc
      simp only at hc
      have h1 : c ∈ removeTripleDash (jsTrim l) := mem_jsTrim hc
      have h2 : c ∈ jsTrim l := mem_removeTripleDash h1
      exact hl (mem_jsTrim h2)
  · have hs' : sepCond l = false := by simpa using hs
    by_cases h2 : jsTrim l = []
    · rw [parseLineWith_blank _ _ _ _ _ h2]
      constructor <;> simp
    · cases h3 : matchBracket l with
      | none =>
        rw [parseLineWith_rawline _ _ _ _ _ hs' h2 h3]
        exact ⟨by simp, hl⟩
      | some v =>
        obtain ⟨t1, t2q, r⟩ := v
        rw [parseLineWith_seg _ _ _ _ _ hs' h2 t1 t2q r h3]
        obtain ⟨mid, hline, _⟩ := matchBracket_split l t1 r t2q h3
        have hr : c ∉ r := fun hc => hl (by rw [hline]; simp [hc])
        have htl := segTailTV_chars r c
        constructor
        · intro hc
          simp only at hc
          unfold applySpeakerMap at hc
          by_cases hemp : speakers.isEmpty = true
          · rw [if_pos hemp] at hc
            exact hr (htl.1 hc)
          · rw [if_neg hemp] at hc
            cases hf : speakers.find?
                (fun s => lowerEq s.id (segTailTV r).speaker) with
            | some e2 =>
              rw [hf] at hc
              exact hnames e2 (List.mem_of_find?_eq_some hf) hc
            | none =>
              rw [hf] at hc
              exact hr (htl.1 hc)
        · intro hc
          simp only at hc
          exact hr (htl.2 hc)

/-- C5: editing the content or the speaker of a segment row preserves the
line's original bracketed time prefix verbatim, writes line `i` as that
prefix, a space, the `speaker: ` piece (only when the speaker is
non-empty) and the new content, and leaves every other raw-text line
unchanged.  (The edited value and the map names are newline-free, as the
line-indexed model requires.) -/
theorem claimC5_content_speaker_edit (speakers : List Speaker)
    (text value : List Char) (i : Nat) (row : RowData) (field : EditField)
    (hrow : (rowsTV speakers text).get? i = some row)
    (hseg : row.type = .segment)
    (hf : field = EditField.content ∨ field = EditField.speaker)
    (hnlv : '\n' ∉ value)
    (hnames : ∀ e ∈ speakers, '\n' ∉ e.name) :
    ∃ pre rest,
      (splitLines text).get? i = some (pre ++ rest) ∧
      bracketPre (pre ++ rest) = some pre ∧
      updateRowTV speakers text i field value =
        joinNl ((splitLines text).set i
          (pre ++ ' ' ::
            (spkPre (if field = EditField.speaker then value else row.speaker) ++
              (if field = EditField.content then value else row.content)))) ∧
      ∀ j, j ≠ i →
        (splitLines (updateRowTV speakers text i field value)).get? j =
          (splitLines text).get? j := by
  have hrow0 := hrow
  rw [rowsTV_get?] at hrow
  cases hl : (splitLines text).get? i with
  | none => rw [hl] at hrow; simp at hrow
  | some l =>
    rw [hl] at hrow
    simp only [Option.map_some', Option.some_inj] at hrow
    have htype : (parseLineWith segTailTV (applySpeakerMap speakers)
        (offsetInForce (splitLines text) i) i l).1.type = .segment := by
      rw [hrow]; exact hseg
    obtain ⟨hsep, hne, t1, t2q, r, hbr⟩ :=
      parseLineWith_segment_inv _ _ _ _ _ htype
    obtain ⟨mid, hline, hpre⟩ := bracketPre_of_matchBracket l t1 r t2q hbr
    have hnl_l : '\n' ∉ l := splitLines_no_nl text l (List.get?_mem hl)
    -- the updated line
    set newline := ('[' :: mid ++ [']']) ++ ' ' ::
      (spkPre (if field = EditField.speaker then value else row.speaker) ++
        (if field = EditField.content then value else row.content)) with hnewline
    have hgetd : (splitLines text).getD i [] = l := by
      rw [listGetD_get?, hl]; rfl
    have hupd : updateRowTV speakers text i field value =
        joinNl ((splitLines text).set i newline) := by
      rcases hf with rfl | rfl <;>
      · unfold updateRowTV
        simp only [hrow0]
        rw [if_neg (by simp [hseg])]
        simp only [hgetd, hpre, Option.getD_some]
        rfl
    have hnl_new : '\n' ∉ newline := by
      have hchars := rowsTV_segment_chars speakers
        (offsetInForce (splitLines text) i) i l '\n' hnl_l hnames
      rw [hrow] at hchars
      have hpre_nl : '\n' ∉ ('[' :: mid ++ [']']) := by
        intro hc
        exact hnl_l (by rw [hline]; exact List.mem_append.mpr (Or.inl hc))
      intro hc
      rw [hnewline] at hc
      have hc' : '\n' ∈ ('[' :: mid ++ [']']) ∨ '\n' = ' ' ∨
          '\n' ∈ spkPre (if field = EditField.speaker then value
            else row.speaker) ∨
          '\n' ∈ (if field = EditField.content then value
            else row.content) := by
        simpa [List.mem_append, List.mem_cons, or_assoc] using hc
      rcases hc' with hc | hc | hc | hc
      · exact hpre_nl hc
      · simp at hc
      · by_cases hfd : field = EditField.speaker
        · rw [if_pos hfd] at hc
          unfold spkPre at hc
          split at hc
          · simp at hc
          · rcases List.mem_append.mp hc with hc | hc
            · exact hnlv hc
            · simp only [List.mem_cons, List.not_mem_nil, or_false] at hc
              rcases hc with hc | hc <;> simp at hc
        · rw [if_neg hfd] at hc
          unfold spkPre at hc
          split at hc
          · simp at hc
          · rcases List.mem_append.mp hc with hc | hc
            · exact hchars.1 hc
            · simp only [List.mem_cons, List.not_mem_nil, or_false] at hc
              rcases hc with hc | hc <;> simp at hc
      · by_cases hfd : field = EditField.content
        · rw [if_pos hfd] at hc
          exact hnlv hc
        · rw [if_neg hfd] at hc
          exact hchars.2 hc
    refine ⟨'[' :: mid ++ [']'], r, ?_, ?_, ?_, ?_⟩
    · rw [hline]
    · rw [← hline]
      exact hpre
    · rw [hupd, hnewline]
    intro j hj
    rw [hupd]
    have hset : splitLines (joinNl ((splitLines text).set i newline)) =
        (splitLines text).set i newline := by
      apply splitLines_joinNl
      · intro hemp
        have := congrArg List.length hemp
        simp only [List.length_set, List.length_nil] at this
        exact splitOnChar_ne_nil '\n' text (List.length_eq_zero.mp this)
      · intro x hx
        rcases List.mem_or_eq_of_mem_set hx with hx | rfl
        · exact splitLines_no_nl text x hx
        · exact hnl_new
    rw [hset]
    exact List.get?_set_ne newline _ (fun he => hj he.symm)

/-- Witness for C5: a content edit on a concrete two-row text. -/
theorem claimC5_content_speaker_edit_witness :
    ∃ pre rest,
      (splitLines "[00:05] A: hi\nplain".data).get? 0 = some (pre ++ rest) ∧
      bracketPre (pre ++ rest) = some pre ∧
      updateRowTV [] "[00:05] A: hi\nplain".data 0 EditField.content
          "yo".data =
        joinNl ((splitLines "[00:05] A: hi\nplain".data).set 0
          (pre ++ ' ' ::
            (spkPre (if EditField.content = EditField.speaker then "yo".data
              else "A".data) ++
              (if EditField.content = EditField.content then "yo".data
                else "hi".data)))) ∧
      ∀ j, j ≠ 0 →
        (splitLines (updateRowTV [] "[00:05] A: hi\nplain".data 0
          EditField.content "yo".data)).get? j =
          (splitLines "[00:05] A: hi\nplain".data).get? j :=
  claimC5_content_speaker_edit [] "[00:05] A: hi\nplain".data "yo".data 0
    ⟨0, .segment, "00:05".data, "A".data, "hi".data, "[00:05] A: hi".data⟩
    EditField.content (by decide) rfl (Or.inl rfl) (by decide)
    (by intro e he; simp at he)

/-- Witness for C10 (amended) at a concrete input. -/
theorem claimC10_amended_agreement_witness :
    ∀ (rT rP : RowData),
      (rowsTV [] "[00:05] **Alice**: Hi".data).get? 0 = some rT →
      (rowsP2 "[00:05] **Alice**: Hi".data).get? 0 = some rP →
      rT.id = rP.id ∧ rT.type = rP.type ∧ rT.time = rP.time :=
  fun rT rP hT hP =>
    (claimC10_amended_agreement "[00:05] **Alice**: Hi".data).2 0 rT rP hT hP

end Transcriber
